import Mathlib

/-!
Verification of the qdl.js flashing tool against its specification.

The JavaScript sources are embedded shallowly:

* byte buffers (`Uint8Array`, `Blob`) become `List Nat` (each element a byte value);
* little-endian `DataView` reads/writes become explicit arithmetic on those lists;
* JS `number` and `BigInt` arithmetic becomes `Nat`/`Int` arithmetic (all quantities
  handled by the verified code paths are integers; `BigInt` bitwise operators are
  modelled by executable two's-complement operations on `Int`);
* stateful loops become structurally or well-founded recursive functions;
* code paths that `throw` are modelled with `Option`.

Each embedded definition cites the source file and function it is translated from.
-/

/-! ### Byte-buffer primitives -/

/-- Byte of a buffer at index `i` (JS `Uint8Array` indexing; reads inside the
verified paths are in bounds, out-of-range indices default to 0). -/
def byteAt (data : List Nat) (i : Nat) : Nat := data.getD i 0

/-- `DataView.getUint16(off, true)` — little-endian 16-bit read. -/
def readU16le (data : List Nat) (off : Nat) : Nat :=
  byteAt data off + 256 * byteAt data (off + 1)

/-- `DataView.getUint32(off, true)` — little-endian 32-bit read. -/
def readU32le (data : List Nat) (off : Nat) : Nat :=
  byteAt data off + 256 * byteAt data (off + 1) + 65536 * byteAt data (off + 2) +
    16777216 * byteAt data (off + 3)

/-- `DataView.getBigUint64(off, true)` — little-endian 64-bit read. -/
def readU64le (data : List Nat) (off : Nat) : Nat :=
  readU32le data off + 4294967296 * readU32le data (off + 4)

/-- Read `n` consecutive bytes starting at `off`. -/
def readBytes (data : List Nat) (off n : Nat) : List Nat :=
  (List.range n).map (fun i => byteAt data (off + i))

/-- Little-endian serialization of a 16-bit value. -/
def u16le (n : Nat) : List Nat := [n % 256, n / 256 % 256]

/-- Little-endian serialization of a 32-bit value. -/
def u32le (n : Nat) : List Nat :=
  [n % 256, n / 256 % 256, n / 65536 % 256, n / 16777216 % 256]

/-- Little-endian serialization of a 64-bit value. -/
def u64le (n : Nat) : List Nat := u32le (n % 4294967296) ++ u32le (n / 4294967296)

/-- `dest.set(src, off)` on a `Uint8Array`: overwrite `dest` with `src` starting at
`off` (in JS, out-of-bounds writes throw; all verified writes are in bounds). -/
def listSet (dest src : List Nat) (off : Nat) : List Nat :=
  dest.take off ++ src ++ dest.drop (off + src.length)

theorem listSet_nil (dest : List Nat) (off : Nat) : listSet dest [] off = dest := by
  simp [listSet]

theorem listSet_length (dest src : List Nat) (off : Nat)
    (h : off + src.length ≤ dest.length) : (listSet dest src off).length = dest.length := by
  simp only [listSet, List.length_append, List.length_take, List.length_drop]
  omega

theorem listSet_zero (dest src : List Nat) :
    listSet dest src 0 = src ++ dest.drop src.length := by
  simp [listSet]

/-! ### CRC-32

The `crc-32` npm package computes the standard CRC-32 (polynomial `0xEDB88320`
reflected, initial value `0xFFFFFFFF`, final xor `0xFFFFFFFF`) over a byte buffer
and returns the 32-bit result reinterpreted as a signed integer.  We compute the
same 32 bits as a `Nat`; two CRC values are equal as signed 32-bit integers
exactly when these unsigned values are equal, so all the source's CRC
comparisons are faithfully mirrored. -/

/-- One bit-step of the CRC-32 table computation. -/
def crcRound (r : Nat) : Nat := if r % 2 = 1 then (r / 2) ^^^ 0xEDB88320 else r / 2

/-- Entry `i` of the CRC-32 table. -/
def crcTable (i : Nat) : Nat := crcRound^[8] i

/-- CRC-32 of a byte buffer (`crc32.buf` of the `crc-32` package, as unsigned). -/
def crc32 (bytes : List Nat) : Nat :=
  (bytes.foldl (fun c b => (c / 256) ^^^ crcTable ((c ^^^ b) % 256)) 0xFFFFFFFF) ^^^ 0xFFFFFFFF

/-! ### JS `BigInt` bitwise operators

`BigInt` bitwise operators act on arbitrary-precision two's-complement integers.
They are embedded as executable functions on `Int`.  `x << n` and `x >> n` on
`BigInt` are exact multiplication/floor-division by `2 ^ n`. -/

/-- Bits of `a` with the bits of `b` removed (`a AND NOT b` on `Nat`): the common
bits `a &&& b` are a sub-mask of `a`, so subtraction clears exactly those bits. -/
def natDiffBits (a b : Nat) : Nat := a - (a &&& b)

/-- JS `BigInt` bitwise AND (two's complement). -/
def jsAnd : Int → Int → Int
  | .ofNat a, .ofNat b => .ofNat (a &&& b)
  | .ofNat a, .negSucc b => .ofNat (natDiffBits a b)
  | .negSucc a, .ofNat b => .ofNat (natDiffBits b a)
  | .negSucc a, .negSucc b => .negSucc (a ||| b)

/-- JS `BigInt` bitwise OR (two's complement). -/
def jsOr : Int → Int → Int
  | .ofNat a, .ofNat b => .ofNat (a ||| b)
  | .ofNat a, .negSucc b => .negSucc (natDiffBits b a)
  | .negSucc a, .ofNat b => .negSucc (natDiffBits a b)
  | .negSucc a, .negSucc b => .negSucc (a &&& b)

/-- JS `BigInt` bitwise NOT: `~x = -(x+1)`. -/
def jsNot (a : Int) : Int := -(a + 1)

/-- JS `BigInt` left shift: `x << n = x * 2^n`. -/
def jsShiftLeft (a : Int) (n : Nat) : Int := a * 2 ^ n

/-- JS `BigInt` arithmetic right shift: `x >> n` = floor division by `2^n`. -/
def jsShiftRight (a : Int) (n : Nat) : Int := Int.fdiv a (2 ^ n)

/-! ## C1 — flashBlob sector computation

`src/qdl.js` `flashBlob` (sparse path) requires each chunk's byte `offset` to be a
multiple of the sector size and programs the chunk at
`partition.sector + offset / SECTOR_SIZE_IN_BYTES`.

`part_008` (the revision with the `logger` module) computes instead
`(partition.sector + BigInt(offset)) / BigInt(SECTOR_SIZE_IN_BYTES)` — the
division applies to the whole sum. -/

/-- Start sector passed to `cmdProgram` for a sparse chunk in `src/qdl.js`
`flashBlob`: `none` models the thrown "Offset not aligned to sector size". -/
def flashBlobChunkSector (partStart offset sectorSize : Nat) : Option Nat :=
  if offset % sectorSize != 0 then none
  else some (partStart + offset / sectorSize)

/-- Start sector passed to `cmdProgram` for a sparse chunk in `part_008`
`flashBlob`: `(partition.sector + BigInt(offset)) / BigInt(sectorSize)`
(BigInt division of nonnegative values truncates, i.e. `Nat` division). -/
def flashBlobChunkSectorP8 (partStart offset sectorSize : Nat) : Option Nat :=
  if offset % sectorSize != 0 then none
  else some ((partStart + offset) / sectorSize)

/-- C1: the `part_008` revision of `flashBlob` programs the wrong start sector.
For a partition starting at sector 6 and an (aligned) chunk offset of 4096 bytes
with 4096-byte sectors, the claim (and `src/qdl.js`) target sector
`6 + 4096/4096 = 7`, but `part_008` computes `(6 + 4096)/4096 = 1`. -/
theorem flashBlob_sector_divergence :
    flashBlobChunkSectorP8 6 4096 4096 = some 1 ∧
      flashBlobChunkSector 6 4096 4096 = some 7 ∧ (1 : Nat) ≠ 7 := by decide

/-! ## C4, C5 — Firehose `xmlSend` and `configure`

`src/firehose.js` `xmlSend` classifies the device's merged `<response>` attributes:
`status = !("value" in resp) || value === "ACK" || value === "true"`, then
 * `rawmode === "false"` → return `response(status, …, log)`;
 * `rawmode` present but not `"false"` → fall through to `response(true, …)`;
 * no `rawmode` and `status` → return `response(status, …)`;
 * no `rawmode` and not `status` → fall through to `response(true, …)`.

`configure` sends the `<configure …/>` command with `wait=false`, discards the
`xmlSend` result, sets `luns = [0, maxlun)` and returns `true` unconditionally. -/

/-- Attributes of the merged `<response>` element(s) relevant to `xmlSend`
(`xmlParser.getResponse` flattens all `<response>` attributes left-to-right). -/
structure XmlResponseAttrs where
  value : Option String
  rawmode : Option String
deriving DecidableEq, Repr

/-- Result object of `xmlSend` (`resp` flag and optional collected log). -/
structure FhResponse where
  resp : Bool
  log : Option (List String)
deriving DecidableEq, Repr

/-- `src/firehose.js` `xmlSend`, lines 63–100: response classification.  `logs` is
`xmlParser.getLog(rData)` and `rawHasLogValue` is `containsBytes("log value=", rData)`. -/
def xmlSend (r : XmlResponseAttrs) (logs : List String) (rawHasLogValue : Bool) : FhResponse :=
  let status := r.value.isNone || (r.value == some "ACK") || (r.value == some "true")
  if r.rawmode.isSome then
    if r.rawmode == some "false" then { resp := status, log := some logs }
    else { resp := true, log := none }
  else
    if status then
      if rawHasLogValue then { resp := status, log := some logs }
      else { resp := status, log := none }
    else { resp := true, log := none }

/-- `maxlun` from the Firehose session configuration. -/
def cfgMaxlun : Nat := 6

/-- `src/firehose.js` `configure`, lines 105–120: sends the `<configure …/>`
command (with `wait = false`), ignores the `xmlSend` result entirely, populates
`luns = [0, maxlun)` and returns `true`. -/
def configure (r : XmlResponseAttrs) (logs : List String) (rawHasLogValue : Bool) :
    Bool × List Nat :=
  let _rsp := xmlSend r logs rawHasLogValue
  (true, List.range cfgMaxlun)

/-- C5: any response whose `value` attribute is neither `"ACK"` nor `"true"` and
which carries no `rawmode="false"` attribute is reported to the caller with
`resp = true`, i.e. such NAKs look like success. -/
theorem xmlSend_nak_reported_ok (r : XmlResponseAttrs) (logs : List String)
    (rawHasLogValue : Bool) (v : String) (hv : r.value = some v)
    (hack : v ≠ "ACK") (htrue : v ≠ "true") (hraw : r.rawmode ≠ some "false") :
    (xmlSend r logs rawHasLogValue).resp = true := by
  have hs : (r.value.isNone || (r.value == some "ACK") || (r.value == some "true")) = false := by
    rw [hv]
    simp only [Option.isNone_some, Bool.false_or, Bool.or_eq_false_iff, beq_iff_eq,
      Option.some.injEq]
    exact ⟨by simpa using hack, by simpa using htrue⟩
  cases hrs : r.rawmode with
  | none => simp [xmlSend, hrs, hs]
  | some s =>
    by_cases hfalse : s = "false"
    · exact absurd (by rw [hrs, hfalse]) hraw
    · have hb : (s == "false") = false := by simpa using hfalse
      simp [xmlSend, hrs, hs, hb]

/-- Witness for C5: a `value="NAK"` response with `rawmode="true"` is classified
as success by `xmlSend`. -/
theorem xmlSend_nak_reported_ok_witness :
    (xmlSend ⟨some "NAK", some "true"⟩ [] false).resp = true :=
  xmlSend_nak_reported_ok ⟨some "NAK", some "true"⟩ [] false "NAK" rfl
    (by decide) (by decide) (by decide)

/-- C4 counterexample: a `value="NAK"` response with an empty log stream — which
therefore contains neither `"Calling handler for configure"` nor
`"Storage type set to value UFS"` — still makes `configure` succeed (it returns
`true` and populates the luns); no `ProtocolError` failure path exists. -/
theorem configure_no_verification_counterexample :
    configure ⟨some "NAK", none⟩ [] false = (true, [0, 1, 2, 3, 4, 5]) ∧
      "Calling handler for configure" ∉ ([] : List String) ∧
      "Storage type set to value UFS" ∉ ([] : List String) := by
  refine ⟨by decide, by simp, by simp⟩

/-- C4 (amended): `configure` performs no verification at all — for every device
response and log stream it returns `true` and populates `luns` with the integers
in `[0, maxlun)`. -/
theorem configure_always_succeeds (r : XmlResponseAttrs) (logs : List String)
    (rawHasLogValue : Bool) :
    configure r logs rawHasLogValue = (true, List.range cfgMaxlun) := rfl

/-! ## C10 — Sahara loader upload slices

`part_003` `Sahara.uploadLoader`, lines 376–398: on a 64-bit memory-read request
`{image_id, data_offset, data_len}` the buffer written to the device is

    if (data_offset + data_len > programmer.byteLength) {
      dataToWrite = new Uint8Array(data_len);              // zero-filled
      if (data_offset < programmer.byteLength)
        dataToWrite.set(programmer[data_offset ..]);       // available tail
    } else {
      dataToWrite = programmer[data_offset .. data_offset + data_len];
    }
-/

/-- The buffer `uploadLoader` writes for a memory-read request. -/
def uploadLoaderDataToWrite (programmer : List Nat) (dataOffset dataLen : Nat) : List Nat :=
  if dataOffset + dataLen > programmer.length then
    let base := List.replicate dataLen 0
    if dataOffset < programmer.length then
      listSet base ((programmer.drop dataOffset).take (programmer.length - dataOffset)) 0
    else base
  else (programmer.drop dataOffset).take dataLen

/-- C10: the written buffer always has length exactly `data_len`; within range it
is the programmer slice `[data_offset, data_offset + data_len)`; past the end it
is the available programmer tail followed by zero padding up to `data_len`. -/
theorem uploadLoader_write_slices (p : List Nat) (off len : Nat) :
    (uploadLoaderDataToWrite p off len).length = len ∧
      (off + len ≤ p.length → uploadLoaderDataToWrite p off len = (p.drop off).take len) ∧
      (off + len > p.length →
        uploadLoaderDataToWrite p off len =
          p.drop off ++ List.replicate (len - (p.length - off)) 0) := by
  refine ⟨?_, ?_, ?_⟩
  · unfold uploadLoaderDataToWrite
    by_cases h : off + len > p.length
    · simp only [h, if_pos]
      by_cases h2 : off < p.length
      · simp only [h2, if_pos]
        have hl : ((p.drop off).take (p.length - off)).length = p.length - off := by
          simp [List.length_take, List.length_drop]
        rw [listSet_length]
        · simp
        · rw [hl]
          simp only [List.length_replicate]
          omega
      · simp [h2]
    · simp only [h, if_neg, not_false_iff, List.length_take, List.length_drop]
      omega
  · intro h
    unfold uploadLoaderDataToWrite
    have : ¬ (off + len > p.length) := by omega
    simp [this]
  · intro h
    unfold uploadLoaderDataToWrite
    simp only [h, if_pos]
    by_cases h2 : off < p.length
    · simp only [h2, if_pos]
      have htake : (p.drop off).take (p.length - off) = p.drop off := by
        apply List.take_of_length_le
        simp [List.length_drop]
      rw [htake, listSet_zero]
      congr 1
      rw [List.drop_replicate]
      congr 1
      simp only [List.length_drop]
    · have hdrop : p.drop off = [] := by
        apply List.drop_eq_nil_of_le
        omega
      have : p.length - off = 0 := by omega
      simp [h2, hdrop, this]

/-- Witness for C10 at a concrete overflowing request: programmer `[1,2,3]`,
`data_offset = 2`, `data_len = 4` — the written buffer is the tail `[3]` padded
with three zeros. -/
theorem uploadLoader_write_slices_witness :
    uploadLoaderDataToWrite [1, 2, 3] 2 4 =
      [1, 2, 3].drop 2 ++ List.replicate (4 - ([1, 2, 3].length - 2)) 0 :=
  (uploadLoader_write_slices [1, 2, 3] 2 4).2.2 (by decide)

/-! ## C6, C7 — GPT A/B slot attributes (`part_006` `gpt.js`)

Constants from `part_006`:

    const ATTRIBUTE_FLAG_OFFSET = 48n;
    const AB_FLAG_OFFSET = ATTRIBUTE_FLAG_OFFSET + 6n;
    const AB_PARTITION_ATTR_SLOT_ACTIVE = BigInt(0x1 << 2);
    const AB_PARTITION_ATTR_BOOT_SUCCESSFUL = BigInt(0x1 << 6);
    const AB_PARTITION_ATTR_UNBOOTABLE = BigInt(0x1 << 7);
    const AB_PARTITION_ATTR_TRIES_MASK = BigInt(0xF << 8);
-/

def AB_FLAG_OFFSET : Nat := 48 + 6

def AB_PARTITION_ATTR_SLOT_ACTIVE : Int := 4

def AB_PARTITION_ATTR_BOOT_SUCCESSFUL : Int := 64

def AB_PARTITION_ATTR_UNBOOTABLE : Int := 128

def AB_PARTITION_ATTR_TRIES_MASK : Int := 0xF00

/-- Parsed A/B flags (`part_006` `parseABFlags`). -/
structure ABFlags where
  active : Bool
  successful : Bool
  unbootable : Bool
  triesRemaining : Int
deriving DecidableEq, Repr

/-- `part_006` `parseABFlags`, lines 288–296. -/
def parseABFlags (attributes : Int) : ABFlags :=
  let abFlags := jsShiftRight attributes AB_FLAG_OFFSET
  { active := jsAnd abFlags AB_PARTITION_ATTR_SLOT_ACTIVE != 0
    successful := jsAnd abFlags AB_PARTITION_ATTR_BOOT_SUCCESSFUL != 0
    unbootable := jsAnd abFlags AB_PARTITION_ATTR_UNBOOTABLE != 0
    triesRemaining := jsShiftRight (jsAnd abFlags AB_PARTITION_ATTR_TRIES_MASK) 8 }

/-- `part_006` `updateABFlags`, lines 307–320, translated operator for operator.
Note the source text is `ret &= ~(…mask…) << AB_FLAG_OFFSET`: the complement is
taken *before* the shift. -/
def updateABFlags (attributes : Int) (active successful unbootable : Bool)
    (triesRemaining : Int) : Int :=
  let ret0 := attributes
  let ret1 := jsAnd ret0 (jsShiftLeft
    (jsNot (jsOr (jsOr (jsOr AB_PARTITION_ATTR_SLOT_ACTIVE AB_PARTITION_ATTR_BOOT_SUCCESSFUL)
      AB_PARTITION_ATTR_UNBOOTABLE) AB_PARTITION_ATTR_TRIES_MASK)) AB_FLAG_OFFSET)
  let ret2 := if active then jsOr ret1 (jsShiftLeft AB_PARTITION_ATTR_SLOT_ACTIVE AB_FLAG_OFFSET) else ret1
  let ret3 := if successful then jsOr ret2 (jsShiftLeft AB_PARTITION_ATTR_BOOT_SUCCESSFUL AB_FLAG_OFFSET) else ret2
  let ret4 := if unbootable then jsOr ret3 (jsShiftLeft AB_PARTITION_ATTR_UNBOOTABLE AB_FLAG_OFFSET) else ret3
  let triesValue := jsShiftLeft (jsAnd triesRemaining 0xF) 8
  jsOr ret4 (jsShiftLeft triesValue AB_FLAG_OFFSET)

/-- Sentinel type GUID of an absent partition entry. -/
def TYPE_EFI_UNUSED : String := "00000000-0000-0000-0000-000000000000"

/-- A GPT partition entry restricted to the fields `setActiveSlot` inspects
(`type` and `name`) and mutates (`attributes`); the location fields are never
touched by it. -/
structure GPTPartitionEntry where
  type : String
  name : String
  attributes : Int
deriving DecidableEq, Repr

/-- JS `name.slice(-2)`: the last two characters (the whole string when shorter). -/
def sliceLast2 (s : String) : String := s.drop (s.length - 2)

/-- `part_006` `GPT.setActiveSlot`, lines 271–280, acting on one entry: absent
entries and entries without an `_a`/`_b` suffix are returned unchanged; slotted
entries get `updateABFlags(attributes, partSlot === "_" + slot, bootable,
!bootable)` (with the defaulted `triesRemaining = 0`). -/
def setActiveSlotEntry (slot : String) (e : GPTPartitionEntry) : GPTPartitionEntry :=
  if e.type == TYPE_EFI_UNUSED then e
  else
    let partSlot := sliceLast2 e.name
    if partSlot != "_a" && partSlot != "_b" then e
    else
      let bootable := e.name == "boot" ++ partSlot
      { e with attributes := updateABFlags e.attributes (partSlot == "_" ++ slot) bootable (!bootable) 0 }

/-- `part_006` `GPT.setActiveSlot`: throws on an invalid slot, else maps the
per-entry update over the partition entry array. -/
def setActiveSlot (slot : String) (entries : List GPTPartitionEntry) :
    Option (List GPTPartitionEntry) :=
  if slot != "a" && slot != "b" then none
  else some (entries.map (setActiveSlotEntry slot))

/-- C6: `updateABFlags` destroys attribute bits 0–53.  Concrete failing input: a
present entry `misc_a` whose attributes are `1` (bit 0, the UEFI "required
partition" bit).  `setActiveSlot "a"` is claimed to change only the A/B flag
field (bits ≥ 54), but the code returns attributes `2^56 + 2^61` — bit 0 has
been cleared, because `~mask << 54n` zeroes the low 54 bits of the AND mask. -/
theorem setActiveSlot_clears_low_bits :
    setActiveSlot "a" [⟨"guid-misc", "misc_a", 1⟩] =
      some [⟨"guid-misc", "misc_a", 2 ^ 56 + 2 ^ 61⟩] ∧
      ((2 ^ 56 + 2 ^ 61 : Int) % 2 = 0 ∧ (1 : Int) % 2 = 1) := by
  constructor
  · decide
  · decide

/-! ### Bit-level facts about the JS `BigInt` operations -/

theorem land_add_ldiff (a b : Nat) : (a &&& b) + Nat.ldiff a b = a := by
  induction a using Nat.binaryRec generalizing b with
  | z => simp [Nat.ldiff, Nat.bitwise_zero_left]
  | f c m ih =>
    induction b using Nat.binaryRec with
    | z => simp [Nat.ldiff, Nat.bitwise_zero_right]
    | f d n _ =>
      rw [Nat.land_bit, Nat.ldiff_bit]
      have h := ih n
      cases c <;> cases d <;>
        simp only [Bool.and_true, Bool.and_false, Bool.true_and, Bool.false_and,
          Bool.not_true, Bool.not_false, Nat.bit_true, Nat.bit_false] <;> omega

theorem natDiffBits_eq_ldiff (a b : Nat) : natDiffBits a b = Nat.ldiff a b := by
  have h1 := land_add_ldiff a b
  unfold natDiffBits
  omega

theorem natDiffBits_testBit (a b i : Nat) :
    (natDiffBits a b).testBit i = (a.testBit i && !(b.testBit i)) := by
  rw [natDiffBits_eq_ldiff, Nat.testBit_ldiff]

theorem jsAnd_ofNat (a b : Nat) : jsAnd (Int.ofNat a) (Int.ofNat b) = Int.ofNat (a &&& b) := rfl

theorem jsOr_ofNat (a b : Nat) : jsOr (Int.ofNat a) (Int.ofNat b) = Int.ofNat (a ||| b) := rfl

theorem jsAnd_ofNat_negSucc (a b : Nat) :
    jsAnd (Int.ofNat a) (Int.negSucc b) = Int.ofNat (natDiffBits a b) := rfl

theorem jsShiftRight_ofNat (v k : Nat) :
    jsShiftRight (Int.ofNat v) k = Int.ofNat (v >>> k) := by
  have h2 : ((2 : Int) ^ k) = Int.ofNat (2 ^ k) := by
    rw [Int.ofNat_eq_natCast]
    push_cast
    ring
  unfold jsShiftRight
  rw [h2, Nat.shiftRight_eq_div_pow]
  cases v with
  | zero => rw [Nat.zero_div]; rfl
  | succ w => rfl

theorem and_two_pow_bne_zero (x i : Nat) : ((x &&& 2 ^ i) != 0) = x.testBit i := by
  rw [Nat.and_two_pow]
  cases h : x.testBit i <;> simp [h]

theorem ofNat_bne_zero (w : Nat) : ((Int.ofNat w : Int) != 0) = (w != 0) := by
  cases w with
  | zero => rfl
  | succ k =>
    simp [bne]
    omega

/-- The AND mask `~(SLOT_ACTIVE | BOOT_SUCCESSFUL | UNBOOTABLE | TRIES_MASK) << 54n`
used by `updateABFlags`, as a two's-complement integer: its low 54 bits are zero
(so `ret &= mask` clears attribute bits 0–53), and above bit 54 it keeps exactly
the bits outside the four flag constants. -/
def m0AB : Nat := 4037 * 2 ^ 54 - 1

theorem updateABFlags_mask_eq :
    jsShiftLeft (jsNot (jsOr (jsOr (jsOr AB_PARTITION_ATTR_SLOT_ACTIVE
        AB_PARTITION_ATTR_BOOT_SUCCESSFUL) AB_PARTITION_ATTR_UNBOOTABLE)
        AB_PARTITION_ATTR_TRIES_MASK)) AB_FLAG_OFFSET = Int.negSucc m0AB := by decide

theorem updateABFlags_ofNat (n : Nat) (act succ unboot : Bool) :
    updateABFlags (Int.ofNat n) act succ unboot 0 =
      Int.ofNat ((((natDiffBits n m0AB) ||| (cond act (2 ^ 56) 0)) |||
        (cond succ (2 ^ 60) 0)) ||| (cond unboot (2 ^ 61) 0)) := by
  have hact : jsShiftLeft AB_PARTITION_ATTR_SLOT_ACTIVE AB_FLAG_OFFSET =
      Int.ofNat (2 ^ 56) := by decide
  have hsucc : jsShiftLeft AB_PARTITION_ATTR_BOOT_SUCCESSFUL AB_FLAG_OFFSET =
      Int.ofNat (2 ^ 60) := by decide
  have hunboot : jsShiftLeft AB_PARTITION_ATTR_UNBOOTABLE AB_FLAG_OFFSET =
      Int.ofNat (2 ^ 61) := by decide
  have htries : jsShiftLeft (jsShiftLeft (jsAnd 0 0xF) 8) AB_FLAG_OFFSET =
      Int.ofNat 0 := by decide
  cases act <;> cases succ <;> cases unboot <;>
    simp only [updateABFlags, updateABFlags_mask_eq, hact, hsucc, hunboot, htries,
      if_true, if_false, cond_true, cond_false, jsAnd_ofNat_negSucc, jsOr_ofNat,
      Nat.or_zero, Bool.false_eq_true, ite_false, ite_true]

theorem parseABFlags_ofNat (v : Nat) :
    parseABFlags (Int.ofNat v) =
      { active := v.testBit 56, successful := v.testBit 60, unbootable := v.testBit 61
        triesRemaining := Int.ofNat (((v >>> 54) &&& 0xF00) >>> 8) } := by
  simp only [parseABFlags]
  rw [show AB_FLAG_OFFSET = 54 from rfl,
      show AB_PARTITION_ATTR_SLOT_ACTIVE = Int.ofNat (2 ^ 2) from rfl,
      show AB_PARTITION_ATTR_BOOT_SUCCESSFUL = Int.ofNat (2 ^ 6) from rfl,
      show AB_PARTITION_ATTR_UNBOOTABLE = Int.ofNat (2 ^ 7) from rfl,
      show AB_PARTITION_ATTR_TRIES_MASK = Int.ofNat 0xF00 from rfl]
  rw [jsShiftRight_ofNat, jsAnd_ofNat, jsAnd_ofNat, jsAnd_ofNat, jsAnd_ofNat, jsShiftRight_ofNat]
  rw [ofNat_bne_zero, ofNat_bne_zero, ofNat_bne_zero]
  rw [and_two_pow_bne_zero, and_two_pow_bne_zero, and_two_pow_bne_zero]
  rw [Nat.testBit_shiftRight, Nat.testBit_shiftRight, Nat.testBit_shiftRight]

theorem parseABFlags_updateABFlags (n : Nat) (act succ unboot : Bool) :
    parseABFlags (updateABFlags (Int.ofNat n) act succ unboot 0) =
      { active := act, successful := succ, unbootable := unboot, triesRemaining := 0 } := by
  rw [updateABFlags_ofNat, parseABFlags_ofNat]
  set V := (((natDiffBits n m0AB) ||| (cond act (2 ^ 56) 0)) |||
      (cond succ (2 ^ 60) 0)) ||| (cond unboot (2 ^ 61) 0) with hV
  have hd : ∀ j, m0AB.testBit j = true → (natDiffBits n m0AB).testBit j = false := by
    intro j hj
    rw [natDiffBits_testBit, hj]
    simp
  have hc : ∀ (b : Bool) (k j : Nat), k ≠ j → (cond b (2 ^ k) 0).testBit j = false := by
    intro b k j hkj
    cases b
    · simp
    · simp [Nat.testBit_two_pow, hkj]
  have hceq : ∀ (b : Bool) (k : Nat), (cond b (2 ^ k) 0).testBit k = b := by
    intro b k
    cases b
    · simp
    · simp [Nat.testBit_two_pow]
  have ht56 : V.testBit 56 = act := by
    rw [hV]
    simp only [Nat.testBit_lor]
    rw [hd 56 (by decide), hceq act 56, hc succ 60 56 (by decide), hc unboot 61 56 (by decide)]
    simp
  have ht60 : V.testBit 60 = succ := by
    rw [hV]
    simp only [Nat.testBit_lor]
    rw [hd 60 (by decide), hceq succ 60, hc act 56 60 (by decide), hc unboot 61 60 (by decide)]
    simp
  have ht61 : V.testBit 61 = unboot := by
    rw [hV]
    simp only [Nat.testBit_lor]
    rw [hd 61 (by decide), hceq unboot 61, hc act 56 61 (by decide), hc succ 60 61 (by decide)]
    simp
  have h0xf00 : ∀ i, (0xF00 : Nat).testBit i = (decide (i ≥ 8) && decide (i - 8 < 4)) := by
    intro i
    rw [show (0xF00 : Nat) = (2 ^ 4 - 1) <<< 8 by decide, Nat.testBit_shiftLeft,
      Nat.testBit_two_pow_sub_one]
  have htr0 : (V >>> 54) &&& 0xF00 = 0 := by
    apply Nat.eq_of_testBit_eq
    intro i
    rw [Nat.testBit_land, Nat.testBit_shiftRight, Nat.zero_testBit, h0xf00 i]
    by_cases h8 : i ≥ 8
    · by_cases h12 : i - 8 < 4
      · have hile : i ≤ 11 := by omega
        interval_cases i
        all_goals {
          rw [hV]
          simp only [Nat.testBit_lor]
          rw [hd _ (by decide), hc act 56 _ (by decide), hc succ 60 _ (by decide),
            hc unboot 61 _ (by decide)]
          simp }
      · simp [h12]
    · simp [h8]
  rw [ht56, ht60, ht61, htr0]
  norm_num

/-- C7 counterexample: `setActiveSlot "a"` on a present `boot_b` entry.  The
claim requires `successful = active`, and here `active = false` (the suffix is
`_b`, the requested slot `a`), so `successful` would have to be `false`.  The
code instead passes `successful = bootable`, so the resulting attributes are
`2^60` (the BOOT_SUCCESSFUL bit set) while the SLOT_ACTIVE bit is clear. -/
theorem setActiveSlot_boot_successful_counterexample :
    setActiveSlot "a" [⟨"guid-boot", "boot_b", 0⟩] =
      some [⟨"guid-boot", "boot_b", 2 ^ 60⟩] ∧
      (parseABFlags (2 ^ 60)).successful = true ∧
      (parseABFlags (2 ^ 60)).active = false := by
  refine ⟨by decide, by decide, by decide⟩

/-- C7 (amended): for every present entry whose name ends in `_a` or `_b`,
`setActiveSlot slot` sets `active = (suffix == "_" + slot)`,
`successful = (the entry is named boot_a/boot_b)`,
`unbootable = !(the entry is named boot_a/boot_b)` and `triesRemaining = 0`.
(The spec said `successful = active` for boot entries; the code passes the
`bootable` flag, so both boot slots are always marked successful.) -/
theorem setActiveSlot_slotted_entry_flags (slot : String) (hslot : slot = "a" ∨ slot = "b")
    (entries : List GPTPartitionEntry) (e : GPTPartitionEntry) (he : e ∈ entries)
    (hpresent : e.type ≠ TYPE_EFI_UNUSED)
    (hsuffix : sliceLast2 e.name = "_a" ∨ sliceLast2 e.name = "_b")
    (hattr : 0 ≤ e.attributes) :
    ∃ out, setActiveSlot slot entries = some out ∧ setActiveSlotEntry slot e ∈ out ∧
      parseABFlags ((setActiveSlotEntry slot e).attributes) =
        { active := sliceLast2 e.name == "_" ++ slot
          successful := e.name == "boot" ++ sliceLast2 e.name
          unbootable := !(e.name == "boot" ++ sliceLast2 e.name)
          triesRemaining := 0 } := by
  refine ⟨entries.map (setActiveSlotEntry slot), ?_, List.mem_map_of_mem _ he, ?_⟩
  · unfold setActiveSlot
    rcases hslot with h | h <;> subst h <;> rfl
  · obtain ⟨n, hn⟩ := Int.eq_ofNat_of_zero_le hattr
    have hty : (e.type == TYPE_EFI_UNUSED) = false := by
      rw [beq_eq_false_iff_ne]
      exact hpresent
    have hsuf : (sliceLast2 e.name != "_a" && sliceLast2 e.name != "_b") = false := by
      rcases hsuffix with h | h <;> rw [h] <;> rfl
    simp only [setActiveSlotEntry, hty, hsuf, Bool.false_eq_true, if_false]
    rw [hn]
    exact parseABFlags_updateABFlags n _ _ _

/-- Witness for C7 (amended): a present `system_a` entry with attributes 5 under
`setActiveSlot "a"`. -/
theorem setActiveSlot_slotted_entry_flags_witness :
    ∃ out, setActiveSlot "a" [⟨"guid-sys", "system_a", 5⟩] = some out ∧
      setActiveSlotEntry "a" ⟨"guid-sys", "system_a", 5⟩ ∈ out ∧
      parseABFlags ((setActiveSlotEntry "a" ⟨"guid-sys", "system_a", 5⟩).attributes) =
        { active := sliceLast2 "system_a" == "_" ++ "a"
          successful := ("system_a" : String) == "boot" ++ sliceLast2 "system_a"
          unbootable := !(("system_a" : String) == "boot" ++ sliceLast2 "system_a")
          triesRemaining := 0 } :=
  setActiveSlot_slotted_entry_flags "a" (Or.inl rfl) _ _ (by simp)
    (by decide) (Or.inl (by decide)) (by decide)

/-! ## C2 — `eraseLun` protected and erasable ranges

`src/qdl.js` / `part_008` `eraseLun`:

1. collect protected ranges — `{start: 0, end: 0}` when `"mbr"` is preserved,
   `{start: currentLba, end: firstUsableLba - 1}` and
   `{start: lastUsableLba + 1, end: backupLba}` when `"gpt"` is preserved, and
   `{start: part.sector, end: part.sector + part.sectors - 1}` for each
   preserved name found in `partentries`;
2. `protectedRanges.sort((a, b) => a.start - b.start)` — a stable ascending
   sort by `start`, modelled by `List.insertionSort` (also stable);
3. coalesce: merge the next range into the current one while
   `nextRange.start <= currentRange.end + 1`, taking the max of the ends;
4. invert: walk the merged list with `lastEndSector` (initially `-1`), emitting
   `[lastEndSector+1, range.start-1]` gaps and a final
   `[lastEndSector+1, backupLba]` tail when `lastEndSector < backupLba`;
5. for each erasable range issue `cmdErase` in chunks of at most
   `maxSectors = 512 * 1024` sectors.

All LBA quantities are embedded as `Int` (they are JS integer values; the
running `lastEndSector` starts at `-1`). -/

/-- A sector range: `lo`/`hi` are the source's `start`/`end` fields (`end` is a
reserved word in Lean). -/
structure ERange where
  lo : Int
  hi : Int
deriving DecidableEq, Repr

/-- The four GPT header LBA fields `eraseLun` destructures. -/
structure GptHeaderLbas where
  currentLba : Int
  backupLba : Int
  firstUsableLba : Int
  lastUsableLba : Int
deriving DecidableEq, Repr

/-- Location of a parsed partition (`partf.sector` / `partf.sectors`, where
`sectors = lastLba - firstLba + 1` may be negative for a malformed entry). -/
structure PartLoc where
  sector : Int
  sectors : Int
deriving DecidableEq, Repr

/-- Lookup in the `partentries` record (`name in partentries` / `partentries[name]`). -/
def lookupPart (parts : List (String × PartLoc)) (name : String) : Option PartLoc :=
  (parts.find? (fun p => p.fst == name)).map (fun p => p.snd)

/-- Step 1 of `eraseLun`: the protected ranges, in the order the source pushes
them (mbr, gpt-current, gpt-backup, then the preserved named partitions). -/
def eraseProtectedRanges (preserve : List String) (h : GptHeaderLbas)
    (parts : List (String × PartLoc)) : List ERange :=
  (if preserve.contains "mbr" then [⟨0, 0⟩] else []) ++
  (if preserve.contains "gpt" then
    [⟨h.currentLba, h.firstUsableLba - 1⟩, ⟨h.lastUsableLba + 1, h.backupLba⟩] else []) ++
  preserve.filterMap (fun name => (lookupPart parts name).map
    (fun p => ⟨p.sector, p.sector + p.sectors - 1⟩))

/-- Step 3 of `eraseLun`: coalescing loop over the sorted ranges (the range
names, used only for log strings, are dropped). -/
def mergeGo (cur : ERange) : List ERange → List ERange
  | [] => [cur]
  | r :: rs =>
    if r.lo ≤ cur.hi + 1 then mergeGo ⟨cur.lo, max cur.hi r.hi⟩ rs
    else cur :: mergeGo r rs

/-- `mergedProtectedRanges` from the sorted protected ranges. -/
def mergeRanges : List ERange → List ERange
  | [] => []
  | r :: rs => mergeGo r rs

/-- Step 4 of `eraseLun`: inversion into erasable ranges, threading
`lastEndSector` and closing with the `backupLba` tail. -/
def invertGo (backupLba : Int) : Int → List ERange → List ERange
  | lastEnd, [] => if lastEnd < backupLba then [⟨lastEnd + 1, backupLba⟩] else []
  | lastEnd, m :: ms =>
    (if m.lo > lastEnd + 1 then [⟨lastEnd + 1, m.lo - 1⟩] else []) ++
      invertGo backupLba m.hi ms

/-- Step 5 of `eraseLun`: the `(startSector, numSectors)` arguments of the
successive `cmdErase` calls for one erasable range (chunked at
`maxSectors = 512 * 1024`). -/
def eraseCallsGo (hi : Int) (sector : Int) : List (Int × Int) :=
  if _h : sector ≤ hi then
    (sector, min (hi - sector + 1) (512 * 1024)) ::
      eraseCallsGo hi (sector + min (hi - sector + 1) (512 * 1024))
  else []
termination_by (hi + 1 - sector).toNat
decreasing_by
  omega

/-- The complete list of `cmdErase` calls `eraseLun` issues for a parsed GPT. -/
def eraseLunCalls (preserve : List String) (h : GptHeaderLbas)
    (parts : List (String × PartLoc)) : List (Int × Int) :=
  let protectedRanges := eraseProtectedRanges preserve h parts
  let sorted := protectedRanges.insertionSort (fun a b => a.lo ≤ b.lo)
  let merged := mergeRanges sorted
  let erasable := invertGo h.backupLba (-1) merged
  erasable.flatMap (fun r => eraseCallsGo r.hi r.lo)

/-- C2 counterexample: a GPT that parses (parsing checks only signature and
revision) but whose backup-GPT area `[lastUsableLba+1, backupLba] = [300, 200]`
and preserved partition `persist = [102, 50]` are empty-as-sets ranges with
`start > end`.  The inversion then walks `lastEndSector` *backwards* (100 → 50)
and the final tail `[51, 299]` overlaps the protected gpt-current range
`[1, 100]`: the second `cmdErase` call `(startSector 51, numSectors 249)`
covers sector 60, which lies inside the protected range `[1, 100]`. -/
theorem eraseLun_erases_protected_counterexample :
    eraseLunCalls ["mbr", "gpt", "persist"] ⟨1, 200, 101, 299⟩
        [("persist", ⟨102, -51⟩)] = [(101, 1), (51, 249)] ∧
      (⟨1, 100⟩ : ERange) ∈ eraseProtectedRanges ["mbr", "gpt", "persist"]
        ⟨1, 200, 101, 299⟩ [("persist", ⟨102, -51⟩)] ∧
      ((51 : Int) ≤ 60 ∧ (60 : Int) < 51 + 249 ∧ (1 : Int) ≤ 60 ∧ (60 : Int) ≤ 100) := by
  have h2a : invertGo 200 (-1) (mergeRanges ((eraseProtectedRanges ["mbr", "gpt", "persist"]
      ⟨1, 200, 101, 299⟩ [("persist", ⟨102, -51⟩)]).insertionSort (fun a b => a.lo ≤ b.lo))) =
      [⟨101, 101⟩, ⟨51, 299⟩] := by decide
  have h2b : eraseCallsGo 101 101 = [(101, 1)] := by
    rw [eraseCallsGo]
    norm_num
    rw [eraseCallsGo]
    norm_num
  have h2c : eraseCallsGo 299 51 = [(51, 249)] := by
    rw [eraseCallsGo]
    norm_num
    rw [eraseCallsGo]
    norm_num
  refine ⟨?_, by decide, by norm_num⟩
  show (invertGo 200 (-1) (mergeRanges ((eraseProtectedRanges ["mbr", "gpt", "persist"]
      ⟨1, 200, 101, 299⟩ [("persist", ⟨102, -51⟩)]).insertionSort
      (fun a b => a.lo ≤ b.lo)))).flatMap (fun r => eraseCallsGo r.hi r.lo) = _
  rw [h2a]
  simp [List.flatMap, h2b, h2c]

/-! ### Properties of the `eraseLun` range pipeline -/

instance : IsTotal ERange (fun a b => a.lo ≤ b.lo) :=
  ⟨fun a b => Int.le_total a.lo b.lo⟩

instance : IsTrans ERange (fun a b => a.lo ≤ b.lo) :=
  ⟨fun _ _ _ hab hbc => le_trans hab hbc⟩

/-- Two ranges in the merged list are separated by a gap of at least one sector. -/
def ERange.gapped (a b : ERange) : Prop := a.hi + 1 < b.lo

theorem mergeGo_lo_bound (rest : List ERange) :
    ∀ cur : ERange, (∀ x ∈ rest, cur.lo ≤ x.lo) →
      rest.Pairwise (fun a b => a.lo ≤ b.lo) →
      ∀ m ∈ mergeGo cur rest, cur.lo ≤ m.lo := by
  induction rest with
  | nil =>
    intro cur _ _ m hm
    simp only [mergeGo, List.mem_singleton] at hm
    subst hm
    exact le_refl _
  | cons x xs ih =>
    intro cur hlo hsorted m hm
    rw [mergeGo] at hm
    have hlo2 : ∀ y ∈ xs, x.lo ≤ y.lo :=
      fun y hy => (List.pairwise_cons.mp hsorted).1 y hy
    have hs2 : xs.Pairwise (fun a b => a.lo ≤ b.lo) := (List.pairwise_cons.mp hsorted).2
    by_cases hc : x.lo ≤ cur.hi + 1
    · rw [if_pos hc] at hm
      exact ih ⟨cur.lo, max cur.hi x.hi⟩
        (fun y hy => hlo y (List.mem_cons_of_mem _ hy)) hs2 m hm
    · rw [if_neg hc] at hm
      rcases List.mem_cons.mp hm with rfl | hm2
      · exact le_refl _
      · exact le_trans (hlo x (List.mem_cons_self _ _)) (ih x hlo2 hs2 m hm2)

theorem mergeGo_covers (rest : List ERange) :
    ∀ cur : ERange, (∀ x ∈ rest, cur.lo ≤ x.lo) →
      rest.Pairwise (fun a b => a.lo ≤ b.lo) →
      ∀ r ∈ cur :: rest, ∃ m ∈ mergeGo cur rest, m.lo ≤ r.lo ∧ r.hi ≤ m.hi := by
  induction rest with
  | nil =>
    intro cur _ _ r hr
    rcases List.mem_cons.mp hr with rfl | hr2
    · exact ⟨r, by simp [mergeGo], le_refl _, le_refl _⟩
    · cases hr2
  | cons x xs ih =>
    intro cur hlo hsorted r hr
    rw [mergeGo]
    have hlo2 : ∀ y ∈ xs, x.lo ≤ y.lo :=
      fun y hy => (List.pairwise_cons.mp hsorted).1 y hy
    have hs2 : xs.Pairwise (fun a b => a.lo ≤ b.lo) := (List.pairwise_cons.mp hsorted).2
    by_cases hc : x.lo ≤ cur.hi + 1
    · rw [if_pos hc]
      have ihcov := ih ⟨cur.lo, max cur.hi x.hi⟩
        (fun y hy => hlo y (List.mem_cons_of_mem _ hy)) hs2
      rcases List.mem_cons.mp hr with rfl | hr2
      · obtain ⟨m, hm, h1, h2⟩ := ihcov _ (List.mem_cons_self _ _)
        exact ⟨m, hm, h1, le_trans (le_max_left _ _) h2⟩
      · rcases List.mem_cons.mp hr2 with rfl | hr3
        · obtain ⟨m, hm, h1, h2⟩ := ihcov _ (List.mem_cons_self _ _)
          exact ⟨m, hm, le_trans h1 (hlo r (List.mem_cons_self _ _)),
            le_trans (le_max_right _ _) h2⟩
        · exact ihcov r (List.mem_cons_of_mem _ hr3)
    · rw [if_neg hc]
      rcases List.mem_cons.mp hr with rfl | hr2
      · exact ⟨r, List.mem_cons_self _ _, le_refl _, le_refl _⟩
      · obtain ⟨m, hm, h1, h2⟩ := ih x hlo2 hs2 r hr2
        exact ⟨m, List.mem_cons_of_mem _ hm, h1, h2⟩

theorem mergeGo_wf_gapped (rest : List ERange) :
    ∀ cur : ERange, cur.lo ≤ cur.hi → (∀ x ∈ rest, x.lo ≤ x.hi) →
      (∀ x ∈ rest, cur.lo ≤ x.lo) → rest.Pairwise (fun a b => a.lo ≤ b.lo) →
      (mergeGo cur rest).Pairwise ERange.gapped ∧
        ∀ m ∈ mergeGo cur rest, m.lo ≤ m.hi := by
  induction rest with
  | nil =>
    intro cur hwfc _ _ _
    refine ⟨by simp [mergeGo], ?_⟩
    intro m hm
    simp only [mergeGo, List.mem_singleton] at hm
    subst hm
    exact hwfc
  | cons x xs ih =>
    intro cur hwfc hwf hlo hsorted
    rw [mergeGo]
    have hlo2 : ∀ y ∈ xs, x.lo ≤ y.lo :=
      fun y hy => (List.pairwise_cons.mp hsorted).1 y hy
    have hs2 : xs.Pairwise (fun a b => a.lo ≤ b.lo) := (List.pairwise_cons.mp hsorted).2
    have hwf2 : ∀ y ∈ xs, y.lo ≤ y.hi := fun y hy => hwf y (List.mem_cons_of_mem _ hy)
    by_cases hc : x.lo ≤ cur.hi + 1
    · rw [if_pos hc]
      exact ih ⟨cur.lo, max cur.hi x.hi⟩ (le_trans hwfc (le_max_left _ _)) hwf2
        (fun y hy => hlo y (List.mem_cons_of_mem _ hy)) hs2
    · rw [if_neg hc]
      have hih := ih x (hwf x (List.mem_cons_self _ _)) hwf2 hlo2 hs2
      refine ⟨List.pairwise_cons.mpr ⟨?_, hih.1⟩, ?_⟩
      · intro m hm
        have hxm : x.lo ≤ m.lo := mergeGo_lo_bound xs x hlo2 hs2 m hm
        exact lt_of_lt_of_le (lt_of_not_le hc) hxm
      · intro m hm
        rcases List.mem_cons.mp hm with rfl | hm2
        · exact hwfc
        · exact hih.2 m hm2

theorem invertGo_avoid (backupLba : Int) (ms : List ERange) :
    ∀ lastEnd : Int, ms.Pairwise ERange.gapped → (∀ m ∈ ms, m.lo ≤ m.hi) →
      (∀ m ∈ ms, lastEnd < m.lo) →
      (∀ e ∈ invertGo backupLba lastEnd ms, lastEnd < e.lo) ∧
      (∀ e ∈ invertGo backupLba lastEnd ms, ∀ m ∈ ms, ∀ x : Int,
        e.lo ≤ x → x ≤ e.hi → ¬(m.lo ≤ x ∧ x ≤ m.hi)) := by
  induction ms with
  | nil =>
    intro lastEnd _ _ _
    constructor
    · intro e he
      rw [invertGo] at he
      by_cases hb : lastEnd < backupLba
      · rw [if_pos hb] at he
        simp only [List.mem_singleton] at he
        subst he
        dsimp only
        omega
      · rw [if_neg hb] at he
        cases he
    · intro e _ m hm
      cases hm
  | cons m ms ih =>
    intro lastEnd hgap hwf hlast
    have hgap2 : ms.Pairwise ERange.gapped := (List.pairwise_cons.mp hgap).2
    have hgapm : ∀ y ∈ ms, m.hi + 1 < y.lo := (List.pairwise_cons.mp hgap).1
    have hwf2 : ∀ y ∈ ms, y.lo ≤ y.hi := fun y hy => hwf y (List.mem_cons_of_mem _ hy)
    have hlast2 : ∀ y ∈ ms, m.hi < y.lo := fun y hy => by
      have := hgapm y hy
      omega
    have hih := ih m.hi hgap2 hwf2 hlast2
    have hmwf : m.lo ≤ m.hi := hwf m (List.mem_cons_self _ _)
    have hmlast : lastEnd < m.lo := hlast m (List.mem_cons_self _ _)
    constructor
    · intro e he
      rw [invertGo] at he
      rcases List.mem_append.mp he with h1 | h2
      · by_cases hc : m.lo > lastEnd + 1
        · rw [if_pos hc] at h1
          simp only [List.mem_singleton] at h1
          subst h1
          dsimp only
          omega
        · rw [if_neg hc] at h1
          cases h1
      · have := hih.1 e h2
        omega
    · intro e he m2 hm2 x hx1 hx2
      rw [invertGo] at he
      rcases List.mem_append.mp he with h1 | h2
      · by_cases hc : m.lo > lastEnd + 1
        · rw [if_pos hc] at h1
          simp only [List.mem_singleton] at h1
          subst h1
          dsimp only at hx1 hx2
          rcases List.mem_cons.mp hm2 with rfl | hm3
          · omega
          · have hg := hgapm m2 hm3
            intro hcon
            omega
        · rw [if_neg hc] at h1
          cases h1
      · rcases List.mem_cons.mp hm2 with rfl | hm3
        · have hlo := hih.1 e h2
          intro hcon
          omega
        · exact hih.2 e h2 m2 hm3 x hx1 hx2

theorem eraseCallsGo_spec (hi : Int) :
    ∀ lo : Int, ∀ c ∈ eraseCallsGo hi lo,
      lo ≤ c.1 ∧ c.1 + c.2 - 1 ≤ hi ∧ 1 ≤ c.2 ∧ c.2 ≤ 512 * 1024 := by
  have key : ∀ n : Nat, ∀ lo : Int, (hi + 1 - lo).toNat = n →
      ∀ c ∈ eraseCallsGo hi lo,
        lo ≤ c.1 ∧ c.1 + c.2 - 1 ≤ hi ∧ 1 ≤ c.2 ∧ c.2 ≤ 512 * 1024 := by
    intro n
    induction n using Nat.strong_induction_on with
    | _ n ih =>
      intro lo hn c hc
      rw [eraseCallsGo] at hc
      by_cases h : lo ≤ hi
      · rw [dif_pos h] at hc
        rcases List.mem_cons.mp hc with rfl | hc2
        · refine ⟨le_refl _, ?_, ?_, ?_⟩ <;> simp only <;> omega
        · have hstep := ih ((hi + 1 - (lo + min (hi - lo + 1) (512 * 1024))).toNat)
            (by omega) _ rfl c hc2
          refine ⟨?_, hstep.2.1, hstep.2.2.1, hstep.2.2.2⟩
          have := hstep.1
          omega
      · rw [dif_neg h] at hc
        cases hc
  intro lo
  exact key (hi + 1 - lo).toNat lo rfl

/-- C2 (amended): provided every computed protected range is well-formed —
`0 ≤ start ≤ end`, which holds for every real GPT since all LBAs are unsigned
and the GPT/partition bounds are ordered — every `cmdErase` call issued by
`eraseLun` covers only sectors outside all protected ranges, and each call
spans at least 1 and at most `512 * 1024` sectors.  (Without the
well-formedness hypothesis the claim is false: see the counterexample, where a
degenerate range drags `lastEndSector` backwards and the tail overlaps a
protected range.) -/
theorem eraseLun_calls_avoid_protected (preserve : List String) (h : GptHeaderLbas)
    (parts : List (String × PartLoc))
    (hwf : ∀ p ∈ eraseProtectedRanges preserve h parts, 0 ≤ p.lo ∧ p.lo ≤ p.hi) :
    ∀ c ∈ eraseLunCalls preserve h parts,
      (1 ≤ c.2 ∧ c.2 ≤ 512 * 1024) ∧
      ∀ x : Int, c.1 ≤ x → x < c.1 + c.2 →
        ∀ p ∈ eraseProtectedRanges preserve h parts, ¬(p.lo ≤ x ∧ x ≤ p.hi) := by
  intro c hc
  simp only [eraseLunCalls] at hc
  rcases List.mem_flatMap.mp hc with ⟨r, hr, hcr⟩
  have hcall := eraseCallsGo_spec r.hi r.lo c hcr
  refine ⟨⟨hcall.2.2.1, hcall.2.2.2⟩, ?_⟩
  intro x hx1 hx2 p hp hpx
  have hxr1 : r.lo ≤ x := le_trans hcall.1 hx1
  have hxr2 : x ≤ r.hi := by
    have h1 := hcall.2.1
    omega
  have hperm := List.perm_insertionSort (fun a b : ERange => a.lo ≤ b.lo)
    (eraseProtectedRanges preserve h parts)
  have hsorted := List.sorted_insertionSort (fun a b : ERange => a.lo ≤ b.lo)
    (eraseProtectedRanges preserve h parts)
  have hwfs : ∀ q ∈ (eraseProtectedRanges preserve h parts).insertionSort
      (fun a b => a.lo ≤ b.lo), 0 ≤ q.lo ∧ q.lo ≤ q.hi :=
    fun q hq => hwf q (hperm.mem_iff.mp hq)
  have hps : p ∈ (eraseProtectedRanges preserve h parts).insertionSort
      (fun a b => a.lo ≤ b.lo) := hperm.mem_iff.mpr hp
  cases hs : (eraseProtectedRanges preserve h parts).insertionSort
      (fun a b => a.lo ≤ b.lo) with
  | nil =>
    rw [hs] at hps
    cases hps
  | cons s ss =>
    rw [hs] at hps hsorted hwfs hr
    rw [show mergeRanges (s :: ss) = mergeGo s ss from rfl] at hr
    have hlos : ∀ y ∈ ss, s.lo ≤ y.lo := (List.pairwise_cons.mp hsorted).1
    have hsor2 : ss.Pairwise (fun a b => a.lo ≤ b.lo) := (List.pairwise_cons.mp hsorted).2
    have hcov := mergeGo_covers ss s hlos hsor2 p hps
    have hstruct := mergeGo_wf_gapped ss s (hwfs s (List.mem_cons_self _ _)).2
      (fun y hy => (hwfs y (List.mem_cons_of_mem _ hy)).2) hlos hsor2
    have hlom : ∀ m ∈ mergeGo s ss, (-1 : Int) < m.lo := by
      intro m hm
      have h1 := mergeGo_lo_bound ss s hlos hsor2 m hm
      have h2 := (hwfs s (List.mem_cons_self _ _)).1
      omega
    have hinv := invertGo_avoid h.backupLba (mergeGo s ss) (-1) hstruct.1 hstruct.2 hlom
    obtain ⟨m, hm, hm1, hm2⟩ := hcov
    exact hinv.2 r hr m hm x hxr1 hxr2 ⟨le_trans hm1 hpx.1, le_trans hpx.2 hm2⟩

/-- Witness for C2 (amended) on a small realistic GPT: `currentLba = 1`,
`backupLba = 100`, `firstUsableLba = 6`, `lastUsableLba = 90`, preserving
mbr and gpt.  The single call is `(6, 85)`, covering exactly the usable area. -/
theorem eraseLun_calls_avoid_protected_witness :
    ((1 : Int) ≤ 85 ∧ (85 : Int) ≤ 512 * 1024) ∧
      ∀ x : Int, 6 ≤ x → x < 6 + 85 →
        ∀ p ∈ eraseProtectedRanges ["mbr", "gpt"] ⟨1, 100, 6, 90⟩ [],
          ¬(p.lo ≤ x ∧ x ≤ p.hi) := by
  have h1 : invertGo 100 (-1) (mergeRanges ((eraseProtectedRanges ["mbr", "gpt"]
      ⟨1, 100, 6, 90⟩ []).insertionSort (fun a b => a.lo ≤ b.lo))) = [⟨6, 90⟩] := by decide
  have h2 : eraseCallsGo 90 6 = [(6, 85)] := by
    rw [eraseCallsGo]
    norm_num
    rw [eraseCallsGo]
    norm_num
  have hmem : ((6 : Int), (85 : Int)) ∈ eraseLunCalls ["mbr", "gpt"] ⟨1, 100, 6, 90⟩ [] := by
    show _ ∈ (invertGo 100 (-1) (mergeRanges ((eraseProtectedRanges ["mbr", "gpt"]
      ⟨1, 100, 6, 90⟩ []).insertionSort (fun a b => a.lo ≤ b.lo)))).flatMap
        (fun r => eraseCallsGo r.hi r.lo)
    rw [h1]
    simp [List.flatMap, h2]
  exact eraseLun_calls_avoid_protected ["mbr", "gpt"] ⟨1, 100, 6, 90⟩ []
    (by decide) (6, 85) hmem

/-! ## C3, C9 — the sparse reader (`src/sparse.js`)

`splitBlob(blob, splitSize = 1048576)` parses the 28-byte file header (yielding
the raw blob when the magic does not match), then iterates `totalChunks` chunk
records.  An oversized chunk (`real bytes > splitSize`) is split into
sub-chunks; processed chunks are accumulated into `splitChunks` and flushed
through `populate` (which materializes Raw/Fill/Skip data into one buffer)
whenever the accumulated size would overflow `splitSize`.

Two faithfulness notes:

* the source computes `remainingBytes = splitSize - calcChunksSize(splitChunks)`
  where `calcChunksSize` is called *without* its `blockSize` argument, so any
  Fill or Skip chunk in the accumulator makes the sum `NaN` (`blocks *
  undefined`); `NaN >= realChunkBytes` is false, which forces a flush.  The
  `NaN` sum is modelled as `none`;
* `splitSize` is always the default `1048576` (`cmdProgram` never passes one),
  and it is inlined as the literal below so that the loop bounds are concrete.
-/

def ChunkTypeRaw : Nat := 0xCAC1

def ChunkTypeFill : Nat := 0xCAC2

def ChunkTypeSkip : Nat := 0xCAC3

def ChunkTypeCrc32 : Nat := 0xCAC4

/-- A parsed chunk: header fields of `parseChunkHeader` (`dataBytes` is
`totalBytes - 12`) plus the `data` slice attached by `splitBlob`. -/
structure PChunk where
  ctype : Nat
  blocks : Nat
  dataBytes : Nat
  data : List Nat
deriving DecidableEq, Repr

/-- Parsed 28-byte sparse file header (`parseFileHeader`). -/
structure SparseHeader where
  magic : Nat
  majorVersion : Nat
  minorVersion : Nat
  fileHeaderSize : Nat
  chunkHeaderSize : Nat
  blockSize : Nat
  totalBlocks : Nat
  totalChunks : Nat
  crc32 : Nat
deriving DecidableEq, Repr

/-- `src/sparse.js` `parseFileHeader`: `null` on magic or header-size mismatch. -/
def parseFileHeader (blob : List Nat) : Option SparseHeader :=
  let magic := readU32le blob 0
  if magic != 0xED26FF3A then none
  else
    let fileHeaderSize := readU16le blob 8
    let chunkHeaderSize := readU16le blob 10
    if fileHeaderSize != 28 then none
    else if chunkHeaderSize != 12 then none
    else some
      { magic
        majorVersion := readU16le blob 4
        minorVersion := readU16le blob 6
        fileHeaderSize
        chunkHeaderSize
        blockSize := readU32le blob 12
        totalBlocks := readU32le blob 16
        totalChunks := readU32le blob 20
        crc32 := readU32le blob 24 }

/-- `calcChunksRealDataBytes(chunk, blockSize)`: the number of bytes a chunk
materializes.  (The source throws on an unknown chunk type; that path is
unreachable for the well-formed chunks all theorems quantify over and is
modelled as 0.) -/
def calcChunksRealDataBytes (blockSize : Nat) (c : PChunk) : Nat :=
  if c.ctype == ChunkTypeRaw then c.dataBytes
  else if c.ctype == ChunkTypeFill then c.blocks * blockSize
  else if c.ctype == ChunkTypeSkip then c.blocks * blockSize
  else if c.ctype == ChunkTypeCrc32 then 0
  else 0

/-- One summand of the `calcChunksSize(splitChunks)` call that forgets to pass
`blockSize`: Fill and Skip produce `blocks * undefined = NaN`, modelled `none`. -/
def realDataBytesNoBlockSize (c : PChunk) : Option Nat :=
  if c.ctype == ChunkTypeRaw then some c.dataBytes
  else if c.ctype == ChunkTypeFill then none
  else if c.ctype == ChunkTypeSkip then none
  else if c.ctype == ChunkTypeCrc32 then some 0
  else none

/-- `calcChunksSize(splitChunks)` as called (without `blockSize`): `none` = NaN. -/
def calcChunksSizeNoBlockSize (cs : List PChunk) : Option Nat :=
  cs.foldl (fun acc c => match acc, realDataBytesNoBlockSize c with
    | some a, some b => some (a + b)
    | _, _ => none) (some 0)

/-- The inner `while (realBytesToWrite > 0)` loop splitting an oversized Fill
or Skip chunk: each pass emits a sub-chunk of `realSend = min(splitSize,
realBytesToWrite)` materialized bytes (`blocks = realSend / blockSize`), keeping
the Fill pattern (`dataBytes = toSend`, `data = slice(0, toSend)`) and giving
Skip sub-chunks no data. -/
def fillSkipSplit (ctype blockSize toSend : Nat) (chunkData : List Nat)
    (realBytes : Nat) : List PChunk :=
  if _h : realBytes > 0 then
    { ctype
      blocks := min 1048576 realBytes / blockSize
      dataBytes := if ctype == ChunkTypeSkip then 0 else toSend
      data := if ctype == ChunkTypeSkip then [] else chunkData.take toSend } ::
      fillSkipSplit ctype blockSize toSend chunkData (realBytes - min 1048576 realBytes)
  else []
termination_by realBytes
decreasing_by
  omega

/-- The outer `while (bytesToWrite > 0)` loop of the chunk splitter: Raw chunks
emit consecutive `toSend`-byte slices; Fill/Skip chunks run the inner loop once
(consuming all of `realBytesToWrite`). -/
def splitChunkLoop (ctype blockSize : Nat) (isFill isSkip : Bool) (data : List Nat)
    (realBytes bytesToWrite : Nat) : List PChunk :=
  if _h : bytesToWrite > 0 then
    let toSend := min 1048576 bytesToWrite
    (if isFill || isSkip then fillSkipSplit ctype blockSize toSend data realBytes
     else [{ ctype, blocks := toSend / blockSize, dataBytes := toSend,
             data := data.take toSend }]) ++
      splitChunkLoop ctype blockSize isFill isSkip (data.drop toSend)
        (if isFill || isSkip then 0 else realBytes) (bytesToWrite - toSend)
  else []
termination_by bytesToWrite
decreasing_by
  omega

/-- `chunksToProcess`: split a chunk whose real size exceeds `splitSize`,
otherwise pass it through unchanged.  (Skip chunks enter the loop with
`bytesToWrite = 1`.) -/
def chunksToProcess (blockSize : Nat) (c : PChunk) : List PChunk :=
  let realBytesToWrite := calcChunksRealDataBytes blockSize c
  let isChunkTypeSkip := c.ctype == ChunkTypeSkip
  let isChunkTypeFill := c.ctype == ChunkTypeFill
  if realBytesToWrite > 1048576 then
    splitChunkLoop c.ctype blockSize isChunkTypeFill isChunkTypeSkip c.data
      realBytesToWrite (if isChunkTypeSkip then 1 else c.dataBytes)
  else [c]

/-- The `for (let i = 0; i < bufferSize; i += dataSize)` tiling loop of
`populate`'s Fill case, writing `fillBin` at `offset` on every pass.  (With
`dataSize = 0` the JS loop would never terminate; that situation cannot arise
for the well-formed fills all theorems quantify over, and the model returns.) -/
def fillLoopPopulate (fillBin : List Nat) (dataSize bufferSize : Nat)
    (ret : List Nat) (offset i : Nat) : List Nat × Nat :=
  if _h : i < bufferSize then
    if _h2 : dataSize = 0 then (ret, offset)
    else fillLoopPopulate fillBin dataSize bufferSize (listSet ret fillBin offset)
      (offset + dataSize) (i + dataSize)
  else (ret, offset)
termination_by bufferSize - i
decreasing_by
  omega

/-- The chunk walk of `populate`, threading the output buffer and offset. -/
def populateGo (blockSize : Nat) : List Nat → Nat → List PChunk → List Nat
  | ret, _offset, [] => ret
  | ret, offset, c :: cs =>
    if c.ctype == ChunkTypeRaw then
      populateGo blockSize (listSet ret c.data offset) (offset + c.blocks * blockSize) cs
    else if c.ctype == ChunkTypeFill then
      let p := fillLoopPopulate c.data c.dataBytes (c.blocks * blockSize) ret offset 0
      populateGo blockSize p.fst p.snd cs
    else if c.ctype == ChunkTypeSkip then
      populateGo blockSize (listSet ret (List.replicate (c.blocks * blockSize) 0) offset)
        (offset + c.blocks * blockSize) cs
    else if c.ctype == ChunkTypeCrc32 then
      populateGo blockSize ret offset cs
    else ret

/-- `src/sparse.js` `populate(chunks, blockSize)`: materialize a chunk group
into one `blockCount * blockSize`-byte buffer. -/
def populate (blockSize : Nat) (chunks : List PChunk) : List Nat :=
  populateGo blockSize
    (List.replicate ((chunks.map (fun c => c.blocks)).sum * blockSize) 0) 0 chunks

/-- The accumulate-or-flush loop at the end of each `splitBlob` iteration:
returns the list of yielded buffers and the accumulator to carry over. -/
def accumulateChunks (blockSize : Nat) :
    List PChunk → List PChunk → List (List Nat) × List PChunk
  | splitChunks, [] => ([], splitChunks)
  | splitChunks, c :: cs =>
    let remainingBytes : Option Int :=
      (calcChunksSizeNoBlockSize splitChunks).map (fun s => (1048576 : Int) - s)
    let realChunkBytes := calcChunksRealDataBytes blockSize c
    match remainingBytes with
    | some rem =>
      if rem ≥ (realChunkBytes : Int) then
        accumulateChunks blockSize (splitChunks ++ [c]) cs
      else
        let out := accumulateChunks blockSize [c] cs
        (populate blockSize splitChunks :: out.fst, out.snd)
    | none =>
      let out := accumulateChunks blockSize [c] cs
      (populate blockSize splitChunks :: out.fst, out.snd)

/-- The main `splitBlob` chunk loop: parse the next 12-byte chunk header and its
data slice, split, accumulate, recurse; the final accumulator is flushed when
nonempty. -/
def splitBlobGo (blockSize : Nat) : Nat → List Nat → List PChunk → List (List Nat)
  | 0, _blob, splitChunks =>
    if splitChunks.isEmpty then [] else [populate blockSize splitChunks]
  | n + 1, blob, splitChunks =>
    let t := readU16le blob 0
    let bl := readU32le blob 4
    let db := readU32le blob 8 - 12
    let c : PChunk := ⟨t, bl, db, (blob.drop 12).take db⟩
    let rest := blob.drop (12 + db)
    let out := accumulateChunks blockSize splitChunks (chunksToProcess blockSize c)
    out.fst ++ splitBlobGo blockSize n rest out.snd

/-- `src/sparse.js` `splitBlob(blob)` (default `splitSize`): the sequence of
buffers the sparse reader yields.  A blob that is not a sparse image is yielded
unchanged. -/
def splitBlob (blob : List Nat) : List (List Nat) :=
  match parseFileHeader blob with
  | none => [blob]
  | some h => splitBlobGo h.blockSize h.totalChunks (blob.drop 28) []

/-! ### Valid sparse images and their reference expansion

A "valid sparse blob" is characterized as the encoding of a list of well-formed
chunks: the 28-byte header (magic `0xED26FF3A`, major 1, minor 0, header sizes
28/12) followed by each chunk's 12-byte header (`type u16, reserved u16,
blocks u32, totalBytes u32`) and payload.  The reference expansion is the one
the spec states: Raw chunks copied literally, Fill chunks tiling their 4-byte
pattern over `blocks * blockSize` bytes, Skip chunks expanded to zeros, Crc32
chunks contributing no output. -/

/-- Serialization of one chunk (12-byte chunk header followed by the payload). -/
def encodeChunk (c : PChunk) : List Nat :=
  u16le c.ctype ++ u16le 0 ++ u32le c.blocks ++ u32le (12 + c.data.length) ++ c.data

/-- Serialization of a whole sparse image. -/
def encodeSparse (blockSize totalBlocks : Nat) (cs : List PChunk) : List Nat :=
  u32le 0xED26FF3A ++ u16le 1 ++ u16le 0 ++ u16le 28 ++ u16le 12 ++
    u32le blockSize ++ u32le totalBlocks ++ u32le cs.length ++ u32le 0 ++
    (cs.map encodeChunk).flatten

/-- Reference expansion of a single chunk, following the spec's words. -/
def referenceChunkExpansion (blockSize : Nat) (c : PChunk) : List Nat :=
  if c.ctype == ChunkTypeRaw then c.data
  else if c.ctype == ChunkTypeFill then
    (List.replicate (c.blocks * blockSize / 4) c.data).flatten
  else if c.ctype == ChunkTypeSkip then List.replicate (c.blocks * blockSize) 0
  else []

/-- Reference expansion of a chunk list. -/
def referenceExpansion (blockSize : Nat) (cs : List PChunk) : List Nat :=
  (cs.map (referenceChunkExpansion blockSize)).flatten

/-- Well-formedness of one chunk per the sparse format: the recorded
`dataBytes` matches the payload, Raw payloads cover `blocks * blockSize`
bytes, Fill/Crc32 payloads are the 4-byte pattern/checksum, Skip carries no
payload and Crc32 covers no blocks. -/
def chunkWf (blockSize : Nat) (c : PChunk) : Prop :=
  c.dataBytes = c.data.length ∧
  ((c.ctype = ChunkTypeRaw ∧ c.data.length = c.blocks * blockSize) ∨
   (c.ctype = ChunkTypeFill ∧ c.data.length = 4) ∨
   (c.ctype = ChunkTypeSkip ∧ c.data = []) ∨
   (c.ctype = ChunkTypeCrc32 ∧ c.data.length = 4 ∧ c.blocks = 0))

/-- Size bounds needed for the header fields of an encoded chunk to round-trip
through the 16/32-bit reads. -/
def chunkEnc (c : PChunk) : Prop :=
  c.ctype < 65536 ∧ c.blocks < 4294967296 ∧ 12 + c.data.length < 4294967296

/-- A valid sparse image: well-formed chunks, consistent totals, and a block
size that is a positive multiple of 4 dividing the reader's 1 MiB split size
(4096 on every real image). -/
def sparseWf (blockSize totalBlocks : Nat) (cs : List PChunk) : Prop :=
  0 < blockSize ∧ 4 ∣ blockSize ∧ blockSize ∣ 1048576 ∧ blockSize < 4294967296 ∧
  totalBlocks = (cs.map (fun c => c.blocks)).sum ∧ totalBlocks < 4294967296 ∧
  cs.length < 4294967296 ∧ ∀ c ∈ cs, chunkWf blockSize c ∧ chunkEnc c

/-! ### Little-endian read/write roundtrips -/

theorem u16le_length (x : Nat) : (u16le x).length = 2 := rfl

theorem u32le_length (x : Nat) : (u32le x).length = 4 := rfl

theorem byteAt_cons_succ (a : Nat) (l : List Nat) (i : Nat) :
    byteAt (a :: l) (i + 1) = byteAt l i := rfl

theorem readU16le_here (x : Nat) (r : List Nat) (hx : x < 65536) :
    readU16le (u16le x ++ r) 0 = x := by
  simp only [readU16le, u16le, byteAt, List.cons_append, List.getD, List.get?,
    Option.getD_some]
  omega

theorem readU32le_here (x : Nat) (r : List Nat) (hx : x < 4294967296) :
    readU32le (u32le x ++ r) 0 = x := by
  simp only [readU32le, u32le, byteAt, List.cons_append]
  simp only [List.getD_cons_zero, List.getD_cons_succ]
  omega

theorem byteAt_shift (xs ys : List Nat) (n off : Nat) (h : xs.length = n)
    (hle : n ≤ off) : byteAt (xs ++ ys) off = byteAt ys (off - n) := by
  simp only [byteAt]
  rw [List.getD_append_right]
  · rw [h]
  · omega

theorem readU16le_shift (xs ys : List Nat) (n off : Nat) (h : xs.length = n)
    (hle : n ≤ off) : readU16le (xs ++ ys) off = readU16le ys (off - n) := by
  simp only [readU16le]
  rw [byteAt_shift xs ys n off h hle, byteAt_shift xs ys n (off + 1) h (by omega)]
  have h1 : off + 1 - n = off - n + 1 := by omega
  rw [h1]

theorem readU32le_shift (xs ys : List Nat) (n off : Nat) (h : xs.length = n)
    (hle : n ≤ off) : readU32le (xs ++ ys) off = readU32le ys (off - n) := by
  simp only [readU32le]
  rw [byteAt_shift xs ys n off h hle, byteAt_shift xs ys n (off + 1) h (by omega),
    byteAt_shift xs ys n (off + 2) h (by omega), byteAt_shift xs ys n (off + 3) h (by omega)]
  have h1 : off + 1 - n = off - n + 1 := by omega
  have h2 : off + 2 - n = off - n + 2 := by omega
  have h3 : off + 3 - n = off - n + 3 := by omega
  rw [h1, h2, h3]

theorem drop_shift (xs : List Nat) : ∀ (ys : List Nat) (off : Nat), xs.length ≤ off →
    (xs ++ ys).drop off = ys.drop (off - xs.length) := by
  induction xs with
  | nil => intro ys off _; simp
  | cons a t ih =>
    intro ys off h
    simp only [List.length_cons] at h
    cases off with
    | zero => omega
    | succ o =>
      simp only [List.cons_append, List.drop_succ_cons, List.length_cons]
      rw [ih ys o (by omega)]
      congr 1
      omega

theorem drop_shift' (xs ys : List Nat) (n off : Nat) (h : xs.length = n) (hle : n ≤ off) :
    (xs ++ ys).drop off = ys.drop (off - n) := by
  subst h
  exact drop_shift xs ys off hle

theorem listSet_adjacent (ret a b : List Nat) (off : Nat)
    (h : off + a.length ≤ ret.length) :
    listSet (listSet ret a off) b (off + a.length) = listSet ret (a ++ b) off := by
  have hX : (ret.take off ++ a).length = off + a.length := by
    simp only [List.length_append, List.length_take]
    omega
  have e1 : listSet ret a off = (ret.take off ++ a) ++ ret.drop (off + a.length) := by
    simp [listSet, List.append_assoc]
  rw [e1]
  simp only [listSet]
  rw [List.take_left' hX]
  rw [drop_shift' (ret.take off ++ a) _ (off + a.length) (off + a.length + b.length) hX
    (by omega)]
  have h2 : off + a.length + b.length - (off + a.length) = b.length := by omega
  rw [h2, List.drop_drop]
  simp [List.append_assoc, Nat.add_assoc]

theorem referenceExpansion_cons (bs : Nat) (c : PChunk) (cs : List PChunk) :
    referenceExpansion bs (c :: cs)
      = referenceChunkExpansion bs c ++ referenceExpansion bs cs := by
  simp [referenceExpansion]

theorem referenceExpansion_append (bs : Nat) (l1 l2 : List PChunk) :
    referenceExpansion bs (l1 ++ l2)
      = referenceExpansion bs l1 ++ referenceExpansion bs l2 := by
  simp [referenceExpansion]

theorem referenceChunkExpansion_length (bs : Nat) (c : PChunk) (h4 : 4 ∣ bs)
    (hc : chunkWf bs c) : (referenceChunkExpansion bs c).length = c.blocks * bs := by
  obtain ⟨hdb, hty⟩ := hc
  rcases hty with ⟨hr, hl⟩ | ⟨hf, hl⟩ | ⟨hs, hd⟩ | ⟨hc4, hl, hb⟩
  · simp [referenceChunkExpansion, hr, hl]
  · have hdvd : (4 : Nat) ∣ c.blocks * bs := Dvd.dvd.mul_left h4 c.blocks
    simp only [referenceChunkExpansion, hf, ChunkTypeRaw, ChunkTypeFill]
    norm_num
    simp only [List.length_flatten, List.map_replicate, List.sum_replicate, smul_eq_mul, hl]
    rw [Nat.div_mul_cancel hdvd]
  · simp only [referenceChunkExpansion, hs, ChunkTypeRaw, ChunkTypeFill, ChunkTypeSkip]
    norm_num
  · simp only [referenceChunkExpansion, hc4, ChunkTypeRaw, ChunkTypeFill, ChunkTypeSkip,
      ChunkTypeCrc32, hb]
    norm_num

theorem referenceExpansion_length (bs : Nat) (h4 : 4 ∣ bs) :
    ∀ (q : List PChunk), (∀ c ∈ q, chunkWf bs c) →
    (referenceExpansion bs q).length = (q.map fun c => c.blocks).sum * bs := by
  intro q
  induction q with
  | nil => intro _; simp [referenceExpansion]
  | cons c cs ih =>
    intro h
    rw [referenceExpansion_cons]
    simp only [List.length_append, List.map_cons, List.sum_cons]
    rw [referenceChunkExpansion_length bs c h4 (h c (by simp)),
      ih (fun x hx => h x (by simp [hx]))]
    ring

theorem fillLoopPopulate_go (fillBin : List Nat) (bufferSize : Nat) :
    ∀ (k : Nat) (ret : List Nat) (offset i : Nat), fillBin.length = 4 →
    i + 4 * k = bufferSize → offset + 4 * k ≤ ret.length →
    fillLoopPopulate fillBin 4 bufferSize ret offset i
      = (listSet ret (List.replicate k fillBin).flatten offset, offset + 4 * k) := by
  intro k
  induction k with
  | zero =>
    intro ret offset i h4 hi hle
    rw [fillLoopPopulate]
    have hnlt : ¬ i < bufferSize := by omega
    rw [dif_neg hnlt]
    simp [listSet_nil]
  | succ k ih =>
    intro ret offset i h4 hi hle
    rw [fillLoopPopulate]
    have hlt : i < bufferSize := by omega
    rw [dif_pos hlt, dif_neg (by omega : ¬ (4 : Nat) = 0)]
    rw [ih (listSet ret fillBin offset) (offset + 4) (i + 4) h4 (by omega)
      (by rw [listSet_length ret fillBin offset (by rw [h4]; omega)]; omega)]
    have hadj := listSet_adjacent ret fillBin (List.replicate k fillBin).flatten offset
      (by rw [h4]; omega)
    rw [h4] at hadj
    rw [hadj]
    simp only [Prod.mk.injEq]
    constructor
    · rw [List.replicate_succ, List.flatten_cons]
    · omega

theorem listSet_adjacent' (ret a b : List Nat) (off n : Nat) (ha : a.length = n)
    (h : off + n ≤ ret.length) :
    listSet (listSet ret a off) b (off + n) = listSet ret (a ++ b) off := by
  subst ha
  exact listSet_adjacent ret a b off h

theorem populateGo_spec (bs : Nat) (h4 : 4 ∣ bs) :
    ∀ (q : List PChunk) (ret : List Nat) (offset : Nat),
    (∀ c ∈ q, chunkWf bs c) →
    offset + (referenceExpansion bs q).length ≤ ret.length →
    populateGo bs ret offset q = listSet ret (referenceExpansion bs q) offset := by
  intro q
  induction q with
  | nil =>
    intro ret offset _ _
    simp [populateGo, referenceExpansion, listSet_nil]
  | cons c cs ih =>
    intro ret offset hwf hle
    have hc : chunkWf bs c := hwf c (by simp)
    have hcs : ∀ x ∈ cs, chunkWf bs x := fun x hx => hwf x (by simp [hx])
    rw [referenceExpansion_cons, List.length_append] at hle
    rw [referenceExpansion_cons]
    obtain ⟨hdb, hty⟩ := hc
    rcases hty with ⟨hr, hl⟩ | ⟨hf, hl⟩ | ⟨hs, hd⟩ | ⟨hc4, hl, hb⟩
    · -- Raw: one set of the payload, advancing by blocks * blockSize
      have hrc : referenceChunkExpansion bs c = c.data := by
        simp [referenceChunkExpansion, hr]
      rw [hrc] at hle ⊢
      simp only [populateGo, hr, beq_self_eq_true, if_true]
      rw [ih (listSet ret c.data offset) (offset + c.blocks * bs) hcs
        (by rw [listSet_length ret c.data offset (by omega)]; omega)]
      exact listSet_adjacent' ret c.data _ offset (c.blocks * bs) hl (by omega)
    · -- Fill: the tiling loop writes the pattern blocks * blockSize / 4 times
      have hdvd4 : (4 : Nat) ∣ c.blocks * bs := Dvd.dvd.mul_left h4 c.blocks
      have hrc : referenceChunkExpansion bs c
          = (List.replicate (c.blocks * bs / 4) c.data).flatten := by
        simp only [referenceChunkExpansion, hf, ChunkTypeRaw, ChunkTypeFill]
        norm_num
      have htile : ((List.replicate (c.blocks * bs / 4) c.data).flatten).length
          = c.blocks * bs := by
        simp only [List.length_flatten, List.map_replicate, List.sum_replicate,
          smul_eq_mul, hl]
        omega
      rw [hrc] at hle ⊢
      simp only [populateGo, hf, ChunkTypeRaw, ChunkTypeFill]
      norm_num
      rw [hdb, hl]
      rw [fillLoopPopulate_go c.data (c.blocks * bs) (c.blocks * bs / 4) ret offset 0 hl
        (by omega) (by omega)]
      dsimp only
      have hm : 4 * (c.blocks * bs / 4) = c.blocks * bs := by omega
      rw [hm]
      rw [ih (listSet ret ((List.replicate (c.blocks * bs / 4) c.data).flatten) offset)
        (offset + c.blocks * bs) hcs
        (by rw [listSet_length _ _ _ (by omega)]; omega)]
      exact listSet_adjacent' ret _ _ offset (c.blocks * bs) htile (by omega)
    · -- Skip: one set of an all-zero buffer
      have hrc : referenceChunkExpansion bs c = List.replicate (c.blocks * bs) 0 := by
        simp only [referenceChunkExpansion, hs, ChunkTypeRaw, ChunkTypeFill, ChunkTypeSkip]
        norm_num
      have hrep : (List.replicate (c.blocks * bs) (0 : Nat)).length = c.blocks * bs := by
        simp
      rw [hrc] at hle ⊢
      simp only [populateGo, hs, ChunkTypeRaw, ChunkTypeFill, ChunkTypeSkip]
      norm_num
      rw [ih (listSet ret (List.replicate (c.blocks * bs) 0) offset)
        (offset + c.blocks * bs) hcs
        (by rw [listSet_length _ _ _ (by omega)]; omega)]
      exact listSet_adjacent' ret _ _ offset (c.blocks * bs) hrep (by omega)
    · -- Crc32: skipped entirely
      have hrc : referenceChunkExpansion bs c = [] := by
        simp only [referenceChunkExpansion, hc4, ChunkTypeRaw, ChunkTypeFill, ChunkTypeSkip,
          ChunkTypeCrc32]
        norm_num
      rw [hrc] at hle ⊢
      simp only [populateGo, hc4, ChunkTypeRaw, ChunkTypeFill, ChunkTypeSkip, ChunkTypeCrc32]
      norm_num
      exact ih ret offset hcs (by simp at hle ⊢; omega)

theorem populate_eq (bs : Nat) (h4 : 4 ∣ bs) (q : List PChunk)
    (hwf : ∀ c ∈ q, chunkWf bs c) : populate bs q = referenceExpansion bs q := by
  have hlen := referenceExpansion_length bs h4 q hwf
  rw [populate, populateGo_spec bs h4 q _ 0 hwf (by simp [hlen])]
  rw [listSet_zero, hlen]
  simp [List.drop_replicate]

theorem fillSkipSplit_fill (bs : Nat) (cd : List Nat) (hcd : cd.length = 4)
    (hbs : 0 < bs) (h4 : 4 ∣ bs) (hdvd : bs ∣ 1048576) :
    ∀ rb, bs ∣ rb →
    (∀ c' ∈ fillSkipSplit ChunkTypeFill bs 4 cd rb, chunkWf bs c') ∧
    referenceExpansion bs (fillSkipSplit ChunkTypeFill bs 4 cd rb)
      = (List.replicate (rb / 4) cd).flatten := by
  intro rb
  induction rb using Nat.strong_induction_on with
  | _ rb ih =>
    intro hdvdrb
    rw [fillSkipSplit]
    by_cases h : rb > 0
    · rw [dif_pos h]
      have hbeq : (ChunkTypeFill == ChunkTypeSkip) = false := by decide
      have hmdvd : bs ∣ min 1048576 rb := by
        rw [Nat.min_def]
        split
        · exact hdvd
        · exact hdvdrb
      have h4m : 4 ∣ min 1048576 rb := h4.trans hmdvd
      have h4rb : 4 ∣ rb := h4.trans hdvdrb
      have hmle : min 1048576 rb ≤ rb := by omega
      have hmpos : 0 < min 1048576 rb := by omega
      rcases ih (rb - min 1048576 rb) (by omega) (Nat.dvd_sub' hdvdrb hmdvd) with ⟨ihwf, ihexp⟩
      constructor
      · intro c' hc'
        rcases List.mem_cons.mp hc' with rfl | hmem
        · refine ⟨by simp [hbeq, hcd], Or.inr (Or.inl ⟨rfl, by simp [hbeq, hcd]⟩)⟩
        · exact ihwf c' hmem
      · rw [referenceExpansion_cons, ihexp]
        have hhead : referenceChunkExpansion bs
            ⟨ChunkTypeFill, min 1048576 rb / bs,
              if (ChunkTypeFill == ChunkTypeSkip) = true then 0 else 4,
              if (ChunkTypeFill == ChunkTypeSkip) = true then [] else cd.take 4⟩
            = (List.replicate (min 1048576 rb / 4) cd).flatten := by
          simp only [referenceChunkExpansion, hbeq, Bool.false_eq_true, if_false]
          norm_num [ChunkTypeRaw, ChunkTypeFill]
          rw [Nat.div_mul_cancel hmdvd, ← hcd, List.take_length]
        rw [hhead, ← List.flatten_append, ← List.replicate_add]
        have harith : min 1048576 rb / 4 + (rb - min 1048576 rb) / 4 = rb / 4 := by omega
        rw [harith]
    · rw [dif_neg h]
      have hrb0 : rb = 0 := by omega
      subst hrb0
      exact ⟨fun c' hc' => absurd hc' (List.not_mem_nil c'), by simp [referenceExpansion]⟩

theorem fillSkipSplit_skip (bs : Nat) (ts : Nat) (cd : List Nat)
    (hbs : 0 < bs) (hdvd : bs ∣ 1048576) :
    ∀ rb, bs ∣ rb →
    (∀ c' ∈ fillSkipSplit ChunkTypeSkip bs ts cd rb, chunkWf bs c') ∧
    referenceExpansion bs (fillSkipSplit ChunkTypeSkip bs ts cd rb)
      = List.replicate rb 0 := by
  intro rb
  induction rb using Nat.strong_induction_on with
  | _ rb ih =>
    intro hdvdrb
    rw [fillSkipSplit]
    by_cases h : rb > 0
    · rw [dif_pos h]
      have hbeq : (ChunkTypeSkip == ChunkTypeSkip) = true := by decide
      have hmdvd : bs ∣ min 1048576 rb := by
        rw [Nat.min_def]
        split
        · exact hdvd
        · exact hdvdrb
      have hmle : min 1048576 rb ≤ rb := by omega
      rcases ih (rb - min 1048576 rb) (by omega) (Nat.dvd_sub' hdvdrb hmdvd) with ⟨ihwf, ihexp⟩
      constructor
      · intro c' hc'
        rcases List.mem_cons.mp hc' with rfl | hmem
        · exact ⟨by simp [hbeq], Or.inr (Or.inr (Or.inl ⟨rfl, by simp [hbeq]⟩))⟩
        · exact ihwf c' hmem
      · rw [referenceExpansion_cons, ihexp]
        have hhead : referenceChunkExpansion bs
            ⟨ChunkTypeSkip, min 1048576 rb / bs,
              if (ChunkTypeSkip == ChunkTypeSkip) = true then 0 else ts,
              if (ChunkTypeSkip == ChunkTypeSkip) = true then [] else cd.take ts⟩
            = List.replicate (min 1048576 rb) 0 := by
          simp only [referenceChunkExpansion, hbeq, if_true]
          norm_num [ChunkTypeRaw, ChunkTypeFill, ChunkTypeSkip]
          rw [Nat.div_mul_cancel hmdvd]
        rw [hhead, ← List.replicate_add]
        have harith : min 1048576 rb + (rb - min 1048576 rb) = rb := by omega
        rw [harith]
    · rw [dif_neg h]
      have hrb0 : rb = 0 := by omega
      subst hrb0
      exact ⟨fun c' hc' => absurd hc' (List.not_mem_nil c'), by simp [referenceExpansion]⟩

theorem splitChunkLoop_raw (bs : Nat) (hdvd : bs ∣ 1048576) :
    ∀ (btw : Nat) (data : List Nat) (rb : Nat), data.length = btw → bs ∣ btw →
    (∀ c' ∈ splitChunkLoop ChunkTypeRaw bs false false data rb btw, chunkWf bs c') ∧
    referenceExpansion bs (splitChunkLoop ChunkTypeRaw bs false false data rb btw)
      = data := by
  intro btw
  induction btw using Nat.strong_induction_on with
  | _ btw ih =>
    intro data rb hlen hdvdb
    rw [splitChunkLoop]
    by_cases h : btw > 0
    · rw [dif_pos h]
      simp only [Bool.or_self, Bool.false_eq_true, if_false]
      have hmdvd : bs ∣ min 1048576 btw := by
        rw [Nat.min_def]
        split
        · exact hdvd
        · exact hdvdb
      have hmle : min 1048576 btw ≤ btw := by omega
      have hmpos : 0 < min 1048576 btw := by omega
      rcases ih (btw - min 1048576 btw) (by omega) (data.drop (min 1048576 btw)) rb
        (by rw [List.length_drop, hlen]) (Nat.dvd_sub' hdvdb hmdvd) with ⟨ihwf, ihexp⟩
      constructor
      · intro c' hc'
        rcases List.mem_cons.mp hc' with rfl | hmem
        · refine ⟨by simp [List.length_take]; omega,
            Or.inl ⟨rfl, ?_⟩⟩
          simp only [List.length_take]
          rw [Nat.div_mul_cancel hmdvd]
          omega
        · exact ihwf c' hmem
      · simp only [List.cons_append, List.nil_append]
        rw [referenceExpansion_cons, ihexp]
        have hhead : referenceChunkExpansion bs
            ⟨ChunkTypeRaw, min 1048576 btw / bs, min 1048576 btw,
              data.take (min 1048576 btw)⟩ = data.take (min 1048576 btw) := by
          simp [referenceChunkExpansion]
        rw [hhead, List.take_append_drop]
    · rw [dif_neg h]
      have hd0 : data = [] := by
        apply List.eq_nil_of_length_eq_zero
        omega
      exact ⟨fun c' hc' => absurd hc' (List.not_mem_nil c'),
        by simp [referenceExpansion, hd0]⟩

theorem chunksToProcess_spec (bs : Nat) (c : PChunk) (hwf : chunkWf bs c)
    (hbs : 0 < bs) (h4 : 4 ∣ bs) (hdvd : bs ∣ 1048576) :
    (∀ c' ∈ chunksToProcess bs c, chunkWf bs c') ∧
    referenceExpansion bs (chunksToProcess bs c) = referenceChunkExpansion bs c := by
  obtain ⟨hdb, hty⟩ := hwf
  by_cases hbig : calcChunksRealDataBytes bs c > 1048576
  case neg =>
    have e : chunksToProcess bs c = [c] := by
      simp only [chunksToProcess]
      rw [if_neg hbig]
    rw [e]
    refine ⟨?_, by simp [referenceExpansion]⟩
    intro c' hc'
    rcases List.mem_cons.mp hc' with rfl | hmem
    · exact ⟨hdb, hty⟩
    · exact absurd hmem (List.not_mem_nil c')
  case pos =>
    rcases hty with ⟨hr, hl⟩ | ⟨hf, hl⟩ | ⟨hs, hd⟩ | ⟨hc4, hl, hb⟩
    · -- Raw: the outer loop slices consecutive payload pieces
      have hfill : (c.ctype == ChunkTypeFill) = false := by rw [hr]; decide
      have hskip : (c.ctype == ChunkTypeSkip) = false := by rw [hr]; decide
      have hreal : calcChunksRealDataBytes bs c = c.dataBytes := by
        simp [calcChunksRealDataBytes, hr]
      have e : chunksToProcess bs c
          = splitChunkLoop ChunkTypeRaw bs false false c.data
              (calcChunksRealDataBytes bs c) c.dataBytes := by
        simp only [chunksToProcess]
        rw [if_pos hbig, hfill, hskip, hr]
        simp
      rw [e]
      have hdvdbtw : bs ∣ c.dataBytes := by
        rw [hdb, hl]
        exact dvd_mul_left bs c.blocks
      have hres := splitChunkLoop_raw bs hdvd c.dataBytes c.data
        (calcChunksRealDataBytes bs c) hdb.symm hdvdbtw
      refine ⟨hres.1, ?_⟩
      rw [hres.2]
      simp [referenceChunkExpansion, hr]
    · -- Fill: one outer pass, all real bytes emitted by the inner loop
      have hfill : (c.ctype == ChunkTypeFill) = true := by rw [hf]; decide
      have hskip : (c.ctype == ChunkTypeSkip) = false := by rw [hf]; decide
      have hreal : calcChunksRealDataBytes bs c = c.blocks * bs := by
        simp [calcChunksRealDataBytes, hf, ChunkTypeRaw, ChunkTypeFill]
      have hdb4 : c.dataBytes = 4 := by rw [hdb, hl]
      have e : chunksToProcess bs c
          = splitChunkLoop ChunkTypeFill bs true false c.data (c.blocks * bs) 4 := by
        simp only [chunksToProcess]
        rw [if_pos hbig, hfill, hskip, hf, hreal, hdb4]
        simp
      have e2 : splitChunkLoop ChunkTypeFill bs true false c.data (c.blocks * bs) 4
          = fillSkipSplit ChunkTypeFill bs 4 c.data (c.blocks * bs) := by
        rw [splitChunkLoop, dif_pos (by norm_num : (4 : Nat) > 0)]
        norm_num
        rw [splitChunkLoop]
        norm_num
      rw [e, e2]
      have hres := fillSkipSplit_fill bs c.data hl hbs h4 hdvd (c.blocks * bs)
        (dvd_mul_left bs c.blocks)
      refine ⟨hres.1, ?_⟩
      rw [hres.2]
      simp only [referenceChunkExpansion, hf, ChunkTypeRaw, ChunkTypeFill]
      norm_num
    · -- Skip: one outer pass with bytesToWrite = 1
      have hfill : (c.ctype == ChunkTypeFill) = false := by rw [hs]; decide
      have hskip : (c.ctype == ChunkTypeSkip) = true := by rw [hs]; decide
      have hreal : calcChunksRealDataBytes bs c = c.blocks * bs := by
        simp [calcChunksRealDataBytes, hs, ChunkTypeRaw, ChunkTypeFill, ChunkTypeSkip]
      have e : chunksToProcess bs c
          = splitChunkLoop ChunkTypeSkip bs false true c.data (c.blocks * bs) 1 := by
        simp only [chunksToProcess]
        rw [if_pos hbig, hfill, hskip, hs, hreal]
        simp
      have e2 : splitChunkLoop ChunkTypeSkip bs false true c.data (c.blocks * bs) 1
          = fillSkipSplit ChunkTypeSkip bs 1 c.data (c.blocks * bs) := by
        rw [splitChunkLoop, dif_pos (by norm_num : (1 : Nat) > 0)]
        norm_num
        rw [splitChunkLoop]
        norm_num
      rw [e, e2]
      have hres := fillSkipSplit_skip bs 1 c.data hbs hdvd (c.blocks * bs)
        (dvd_mul_left bs c.blocks)
      refine ⟨hres.1, ?_⟩
      rw [hres.2]
      simp only [referenceChunkExpansion, hs, ChunkTypeRaw, ChunkTypeFill, ChunkTypeSkip]
      norm_num
    · -- Crc32: zero real bytes, never oversized
      have hreal : calcChunksRealDataBytes bs c = 0 := by
        simp [calcChunksRealDataBytes, hc4, ChunkTypeRaw, ChunkTypeFill, ChunkTypeSkip,
          ChunkTypeCrc32]
      rw [hreal] at hbig
      omega

theorem encodeChunk_reads (c : PChunk) (rest : List Nat) (henc : chunkEnc c) :
    readU16le (encodeChunk c ++ rest) 0 = c.ctype ∧
    readU32le (encodeChunk c ++ rest) 4 = c.blocks ∧
    readU32le (encodeChunk c ++ rest) 8 = 12 + c.data.length ∧
    ((encodeChunk c ++ rest).drop 12).take c.data.length = c.data ∧
    (encodeChunk c ++ rest).drop (12 + c.data.length) = rest := by
  obtain ⟨h1, h2, h3⟩ := henc
  have e : encodeChunk c ++ rest
      = u16le c.ctype ++ (u16le 0 ++ (u32le c.blocks ++
          (u32le (12 + c.data.length) ++ (c.data ++ rest)))) := by
    simp [encodeChunk, List.append_assoc]
  refine ⟨?_, ?_, ?_, ?_, ?_⟩
  · rw [e]
    exact readU16le_here _ _ h1
  · rw [e, readU32le_shift (u16le c.ctype) _ 2 4 (u16le_length _) (by norm_num),
      readU32le_shift (u16le 0) _ 2 (4 - 2) (u16le_length _) (by norm_num)]
    exact readU32le_here _ _ h2
  · rw [e, readU32le_shift (u16le c.ctype) _ 2 8 (u16le_length _) (by norm_num),
      readU32le_shift (u16le 0) _ 2 (8 - 2) (u16le_length _) (by norm_num),
      readU32le_shift (u32le c.blocks) _ 4 (8 - 2 - 2) (u32le_length _) (by norm_num)]
    exact readU32le_here _ _ h3
  · rw [e, drop_shift' (u16le c.ctype) _ 2 12 (u16le_length _) (by norm_num),
      drop_shift' (u16le 0) _ 2 (12 - 2) (u16le_length _) (by norm_num),
      drop_shift' (u32le c.blocks) _ 4 (12 - 2 - 2) (u32le_length _) (by norm_num),
      drop_shift' (u32le (12 + c.data.length)) _ 4 (12 - 2 - 2 - 4) (u32le_length _)
        (by norm_num)]
    norm_num
  · rw [e, drop_shift' (u16le c.ctype) _ 2 (12 + c.data.length) (u16le_length _) (by omega),
      drop_shift' (u16le 0) _ 2 (12 + c.data.length - 2) (u16le_length _) (by omega),
      drop_shift' (u32le c.blocks) _ 4 (12 + c.data.length - 2 - 2) (u32le_length _)
        (by omega),
      drop_shift' (u32le (12 + c.data.length)) _ 4 (12 + c.data.length - 2 - 2 - 4)
        (u32le_length _) (by omega)]
    have hi : 12 + c.data.length - 2 - 2 - 4 - 4 = c.data.length := by omega
    rw [hi]
    exact List.drop_left c.data rest

theorem encodeSparse_parse (bs tb : Nat) (cs : List PChunk) (hbs : bs < 4294967296)
    (htb : tb < 4294967296) (hlen : cs.length < 4294967296) :
    parseFileHeader (encodeSparse bs tb cs)
      = some ⟨0xED26FF3A, 1, 0, 28, 12, bs, tb, cs.length, 0⟩ ∧
    (encodeSparse bs tb cs).drop 28 = (cs.map encodeChunk).flatten := by
  have e : encodeSparse bs tb cs
      = u32le 0xED26FF3A ++ (u16le 1 ++ (u16le 0 ++ (u16le 28 ++ (u16le 12 ++
          (u32le bs ++ (u32le tb ++ (u32le cs.length ++ (u32le 0 ++
            (cs.map encodeChunk).flatten)))))))) := by
    simp [encodeSparse, List.append_assoc]
  have r0 : readU32le (encodeSparse bs tb cs) 0 = 0xED26FF3A := by
    rw [e]
    exact readU32le_here _ _ (by norm_num)
  have r4 : readU16le (encodeSparse bs tb cs) 4 = 1 := by
    rw [e, readU16le_shift (u32le 0xED26FF3A) _ 4 4 (u32le_length _) (by norm_num)]
    exact readU16le_here _ _ (by norm_num)
  have r6 : readU16le (encodeSparse bs tb cs) 6 = 0 := by
    rw [e, readU16le_shift (u32le 0xED26FF3A) _ 4 6 (u32le_length _) (by norm_num),
      readU16le_shift (u16le 1) _ 2 (6 - 4) (u16le_length _) (by norm_num)]
    exact readU16le_here _ _ (by norm_num)
  have r8 : readU16le (encodeSparse bs tb cs) 8 = 28 := by
    rw [e, readU16le_shift (u32le 0xED26FF3A) _ 4 8 (u32le_length _) (by norm_num),
      readU16le_shift (u16le 1) _ 2 (8 - 4) (u16le_length _) (by norm_num),
      readU16le_shift (u16le 0) _ 2 (8 - 4 - 2) (u16le_length _) (by norm_num)]
    exact readU16le_here _ _ (by norm_num)
  have r10 : readU16le (encodeSparse bs tb cs) 10 = 12 := by
    rw [e, readU16le_shift (u32le 0xED26FF3A) _ 4 10 (u32le_length _) (by norm_num),
      readU16le_shift (u16le 1) _ 2 (10 - 4) (u16le_length _) (by norm_num),
      readU16le_shift (u16le 0) _ 2 (10 - 4 - 2) (u16le_length _) (by norm_num),
      readU16le_shift (u16le 28) _ 2 (10 - 4 - 2 - 2) (u16le_length _) (by norm_num)]
    exact readU16le_here _ _ (by norm_num)
  have r12 : readU32le (encodeSparse bs tb cs) 12 = bs := by
    rw [e, readU32le_shift (u32le 0xED26FF3A) _ 4 12 (u32le_length _) (by norm_num),
      readU32le_shift (u16le 1) _ 2 (12 - 4) (u16le_length _) (by norm_num),
      readU32le_shift (u16le 0) _ 2 (12 - 4 - 2) (u16le_length _) (by norm_num),
      readU32le_shift (u16le 28) _ 2 (12 - 4 - 2 - 2) (u16le_length _) (by norm_num),
      readU32le_shift (u16le 12) _ 2 (12 - 4 - 2 - 2 - 2) (u16le_length _) (by norm_num)]
    exact readU32le_here _ _ hbs
  have r16 : readU32le (encodeSparse bs tb cs) 16 = tb := by
    rw [e, readU32le_shift (u32le 0xED26FF3A) _ 4 16 (u32le_length _) (by norm_num),
      readU32le_shift (u16le 1) _ 2 (16 - 4) (u16le_length _) (by norm_num),
      readU32le_shift (u16le 0) _ 2 (16 - 4 - 2) (u16le_length _) (by norm_num),
      readU32le_shift (u16le 28) _ 2 (16 - 4 - 2 - 2) (u16le_length _) (by norm_num),
      readU32le_shift (u16le 12) _ 2 (16 - 4 - 2 - 2 - 2) (u16le_length _) (by norm_num),
      readU32le_shift (u32le bs) _ 4 (16 - 4 - 2 - 2 - 2 - 2) (u32le_length _)
        (by norm_num)]
    exact readU32le_here _ _ htb
  have r20 : readU32le (encodeSparse bs tb cs) 20 = cs.length := by
    rw [e, readU32le_shift (u32le 0xED26FF3A) _ 4 20 (u32le_length _) (by norm_num),
      readU32le_shift (u16le 1) _ 2 (20 - 4) (u16le_length _) (by norm_num),
      readU32le_shift (u16le 0) _ 2 (20 - 4 - 2) (u16le_length _) (by norm_num),
      readU32le_shift (u16le 28) _ 2 (20 - 4 - 2 - 2) (u16le_length _) (by norm_num),
      readU32le_shift (u16le 12) _ 2 (20 - 4 - 2 - 2 - 2) (u16le_length _) (by norm_num),
      readU32le_shift (u32le bs) _ 4 (20 - 4 - 2 - 2 - 2 - 2) (u32le_length _)
        (by norm_num),
      readU32le_shift (u32le tb) _ 4 (20 - 4 - 2 - 2 - 2 - 2 - 4) (u32le_length _)
        (by norm_num)]
    exact readU32le_here _ _ hlen
  have r24 : readU32le (encodeSparse bs tb cs) 24 = 0 := by
    rw [e, readU32le_shift (u32le 0xED26FF3A) _ 4 24 (u32le_length _) (by norm_num),
      readU32le_shift (u16le 1) _ 2 (24 - 4) (u16le_length _) (by norm_num),
      readU32le_shift (u16le 0) _ 2 (24 - 4 - 2) (u16le_length _) (by norm_num),
      readU32le_shift (u16le 28) _ 2 (24 - 4 - 2 - 2) (u16le_length _) (by norm_num),
      readU32le_shift (u16le 12) _ 2 (24 - 4 - 2 - 2 - 2) (u16le_length _) (by norm_num),
      readU32le_shift (u32le bs) _ 4 (24 - 4 - 2 - 2 - 2 - 2) (u32le_length _)
        (by norm_num),
      readU32le_shift (u32le tb) _ 4 (24 - 4 - 2 - 2 - 2 - 2 - 4) (u32le_length _)
        (by norm_num),
      readU32le_shift (u32le cs.length) _ 4 (24 - 4 - 2 - 2 - 2 - 2 - 4 - 4)
        (u32le_length _) (by norm_num)]
    exact readU32le_here _ _ (by norm_num)
  constructor
  · simp only [parseFileHeader]
    rw [r0, r4, r6, r8, r10, r12, r16, r20, r24]
    norm_num
  · rw [e, drop_shift' (u32le 0xED26FF3A) _ 4 28 (u32le_length _) (by norm_num),
      drop_shift' (u16le 1) _ 2 (28 - 4) (u16le_length _) (by norm_num),
      drop_shift' (u16le 0) _ 2 (28 - 4 - 2) (u16le_length _) (by norm_num),
      drop_shift' (u16le 28) _ 2 (28 - 4 - 2 - 2) (u16le_length _) (by norm_num),
      drop_shift' (u16le 12) _ 2 (28 - 4 - 2 - 2 - 2) (u16le_length _) (by norm_num),
      drop_shift' (u32le bs) _ 4 (28 - 4 - 2 - 2 - 2 - 2) (u32le_length _) (by norm_num),
      drop_shift' (u32le tb) _ 4 (28 - 4 - 2 - 2 - 2 - 2 - 4) (u32le_length _)
        (by norm_num),
      drop_shift' (u32le cs.length) _ 4 (28 - 4 - 2 - 2 - 2 - 2 - 4 - 4) (u32le_length _)
        (by norm_num),
      drop_shift' (u32le 0) _ 4 (28 - 4 - 2 - 2 - 2 - 2 - 4 - 4 - 4) (u32le_length _)
        (by norm_num)]
    norm_num

theorem accumulateChunks_spec (bs : Nat) (h4 : 4 ∣ bs) :
    ∀ (ps q : List PChunk), (∀ c ∈ q, chunkWf bs c) → (∀ c ∈ ps, chunkWf bs c) →
    (∀ c ∈ (accumulateChunks bs q ps).snd, chunkWf bs c) ∧
    ((accumulateChunks bs q ps).fst.flatten
        ++ referenceExpansion bs (accumulateChunks bs q ps).snd
      = referenceExpansion bs q ++ referenceExpansion bs ps) := by
  intro ps
  induction ps with
  | nil =>
    intro q hq _
    exact ⟨hq, by simp [accumulateChunks, referenceExpansion]⟩
  | cons c ps ih =>
    intro q hq hps
    have hc : chunkWf bs c := hps c (by simp)
    have hps' : ∀ x ∈ ps, chunkWf bs x := fun x hx => hps x (by simp [hx])
    have hqc : ∀ x ∈ [c], chunkWf bs x := by
      intro x hx
      rcases List.mem_cons.mp hx with rfl | h0
      · exact hc
      · exact absurd h0 (List.not_mem_nil x)
    have hqac : ∀ x ∈ q ++ [c], chunkWf bs x := by
      intro x hx
      rcases List.mem_append.mp hx with h0 | h0
      · exact hq x h0
      · exact hqc x h0
    simp only [accumulateChunks]
    rcases hrem : calcChunksSizeNoBlockSize q with _ | s
    · -- NaN accumulator size: the match takes its none branch and flushes
      split
      next rem heq => simp at heq
      next heq =>
        rcases ih [c] hqc hps' with ⟨ihwf, ihexp⟩
        refine ⟨ihwf, ?_⟩
        simp only [List.flatten_cons]
        rw [populate_eq bs h4 q hq, List.append_assoc, ihexp, referenceExpansion_cons]
        simp [referenceExpansion]
    · split
      next rem heq =>
        have hrem2 : rem = 1048576 - (s : Int) := by
          simp at heq
          omega
        subst hrem2
        by_cases hge : ((1048576 : Int) - s) ≥ (calcChunksRealDataBytes bs c : Int)
        · rw [if_pos hge]
          rcases ih (q ++ [c]) hqac hps' with ⟨ihwf, ihexp⟩
          refine ⟨ihwf, ?_⟩
          rw [ihexp, referenceExpansion_append, referenceExpansion_cons]
          simp [referenceExpansion, List.append_assoc]
        · rw [if_neg hge]
          rcases ih [c] hqc hps' with ⟨ihwf, ihexp⟩
          refine ⟨ihwf, ?_⟩
          simp only [List.flatten_cons]
          rw [populate_eq bs h4 q hq, List.append_assoc, ihexp, referenceExpansion_cons]
          simp [referenceExpansion]
      next heq => simp at heq

theorem splitBlobGo_master (bs : Nat) (hbs : 0 < bs) (h4 : 4 ∣ bs)
    (hdvd : bs ∣ 1048576) :
    ∀ (cs acc : List PChunk),
    (∀ c ∈ cs, chunkWf bs c ∧ chunkEnc c) → (∀ c ∈ acc, chunkWf bs c) →
    (splitBlobGo bs cs.length ((cs.map encodeChunk).flatten) acc).flatten
      = referenceExpansion bs acc ++ referenceExpansion bs cs := by
  intro cs
  induction cs with
  | nil =>
    intro acc _ hacc
    by_cases h : acc = []
    · subst h
      simp [splitBlobGo, referenceExpansion]
    · have hne : ¬ acc.isEmpty = true := by
        simp [List.isEmpty_iff]
        exact h
      simp only [List.length_nil, List.map_nil, List.flatten_nil, splitBlobGo]
      rw [if_neg hne]
      simp only [List.flatten_cons, List.flatten_nil, List.append_nil]
      rw [populate_eq bs h4 acc hacc]
      simp [referenceExpansion]
  | cons c cs ih =>
    intro acc hcs hacc
    obtain ⟨hcwf, hcenc⟩ := hcs c (by simp)
    have hdb : c.dataBytes = c.data.length := hcwf.1
    have hrest : ∀ x ∈ cs, chunkWf bs x ∧ chunkEnc x := fun x hx => hcs x (by simp [hx])
    obtain ⟨e0, e4, e8, etake, edrop⟩ :=
      encodeChunk_reads c ((cs.map encodeChunk).flatten) hcenc
    have hL : (((c :: cs).map encodeChunk).flatten)
        = encodeChunk c ++ (cs.map encodeChunk).flatten := by
      simp
    simp only [List.length_cons, hL, splitBlobGo]
    rw [e0, e4, e8]
    have h12 : 12 + c.data.length - 12 = c.data.length := by omega
    rw [h12, etake, edrop]
    have hcc : (⟨c.ctype, c.blocks, c.data.length, c.data⟩ : PChunk) = c := by
      rw [← hdb]
    rw [hcc]
    have hproc := chunksToProcess_spec bs c hcwf hbs h4 hdvd
    have hout := accumulateChunks_spec bs h4 (chunksToProcess bs c) acc hacc hproc.1
    rw [List.flatten_append, ih _ hrest hout.1, ← List.append_assoc, hout.2,
      referenceExpansion_cons, hproc.2, List.append_assoc]

theorem splitBlob_master (bs tb : Nat) (cs : List PChunk) (hwf : sparseWf bs tb cs) :
    (splitBlob (encodeSparse bs tb cs)).flatten = referenceExpansion bs cs ∧
    (referenceExpansion bs cs).length = tb * bs := by
  obtain ⟨hbs, h4, hdvd, hbs32, htbsum, htb32, hcs32, hall⟩ := hwf
  obtain ⟨hp, hd⟩ := encodeSparse_parse bs tb cs hbs32 htb32 hcs32
  constructor
  · rw [splitBlob, hp]
    rw [hd]
    have h := splitBlobGo_master bs hbs h4 hdvd cs []
      hall (by intro x hx; exact absurd hx (List.not_mem_nil x))
    rw [h]
    simp [referenceExpansion]
  · rw [referenceExpansion_length bs h4 cs (fun c hc => (hall c hc).1), ← htbsum]

/-- C3: For every valid sparse blob (the encoding of well-formed chunks with
consistent totals), concatenating the output of the sparse reader `splitBlob`
in order yields a byte string of length `totalBlocks * blockSize` that is
byte-identical to the reference expansion of the image: Raw chunks copied
literally, Fill chunks tiling their 4-byte pattern over `blocks * blockSize`
bytes, Skip chunks expanded to zeros, Crc32 chunks contributing no output. -/
theorem splitBlob_reference_expansion (bs tb : Nat) (cs : List PChunk)
    (hwf : sparseWf bs tb cs) :
    (splitBlob (encodeSparse bs tb cs)).flatten = referenceExpansion bs cs ∧
    (splitBlob (encodeSparse bs tb cs)).flatten.length = tb * bs := by
  obtain ⟨h1, h2⟩ := splitBlob_master bs tb cs hwf
  exact ⟨h1, by rw [h1, h2]⟩

theorem splitBlob_reference_expansion_witness :
    sparseWf 4 3 [⟨0xCAC1, 1, 4, [1, 2, 3, 4]⟩, ⟨0xCAC2, 1, 4, [0, 0, 0, 170]⟩,
      ⟨0xCAC3, 1, 0, []⟩, ⟨0xCAC4, 0, 4, [9, 9, 9, 9]⟩] ∧
    ((splitBlob (encodeSparse 4 3 [⟨0xCAC1, 1, 4, [1, 2, 3, 4]⟩,
        ⟨0xCAC2, 1, 4, [0, 0, 0, 170]⟩, ⟨0xCAC3, 1, 0, []⟩,
        ⟨0xCAC4, 0, 4, [9, 9, 9, 9]⟩])).flatten
      = referenceExpansion 4 [⟨0xCAC1, 1, 4, [1, 2, 3, 4]⟩,
          ⟨0xCAC2, 1, 4, [0, 0, 0, 170]⟩, ⟨0xCAC3, 1, 0, []⟩,
          ⟨0xCAC4, 0, 4, [9, 9, 9, 9]⟩] ∧
     (splitBlob (encodeSparse 4 3 [⟨0xCAC1, 1, 4, [1, 2, 3, 4]⟩,
        ⟨0xCAC2, 1, 4, [0, 0, 0, 170]⟩, ⟨0xCAC3, 1, 0, []⟩,
        ⟨0xCAC4, 0, 4, [9, 9, 9, 9]⟩])).flatten.length = 3 * 4) := by
  have hwf : sparseWf 4 3 [⟨0xCAC1, 1, 4, [1, 2, 3, 4]⟩,
      ⟨0xCAC2, 1, 4, [0, 0, 0, 170]⟩, ⟨0xCAC3, 1, 0, []⟩,
      ⟨0xCAC4, 0, 4, [9, 9, 9, 9]⟩] := by
    unfold sparseWf chunkWf chunkEnc
    decide
  exact ⟨hwf, splitBlob_reference_expansion 4 3 _ hwf⟩

/-- C9: the claim says a Fill chunk whose 4-byte pattern is all zeros emits a
hole (no materialized data).  In the source, `populate` tiles every Fill
pattern — zero or not — into a materialized output buffer, so a one-chunk
zero-fill image is yielded as the materialized 4-byte buffer `[0, 0, 0, 0]`,
never as a hole: every buffer the reader yields for it is nonempty. -/
theorem splitBlob_zero_fill_materializes :
    splitBlob (encodeSparse 4 1 [⟨0xCAC2, 1, 4, [0, 0, 0, 0]⟩]) = [[0, 0, 0, 0]] ∧
    ∀ out ∈ splitBlob (encodeSparse 4 1 [⟨0xCAC2, 1, 4, [0, 0, 0, 0]⟩]), out ≠ [] := by
  have e1 : splitBlob (encodeSparse 4 1 [⟨0xCAC2, 1, 4, [0, 0, 0, 0]⟩])
      = [populate 4 [⟨0xCAC2, 1, 4, [0, 0, 0, 0]⟩]] := rfl
  have e2 : populate 4 [⟨0xCAC2, 1, 4, [0, 0, 0, 0]⟩] = [0, 0, 0, 0] := by
    rw [populate_eq 4 (by norm_num) _ (by unfold chunkWf; decide)]
    decide
  rw [e1, e2]
  exact ⟨rfl, by decide⟩

/-- C9 (amended): every Fill chunk — zero pattern included — is materialized by
tiling its 4-byte pattern over `blocks * blockSize` bytes; no hole is
emitted. -/
theorem splitBlob_fill_tiling (bs tb blocks : Nat) (pattern : List Nat)
    (hwf : sparseWf bs tb [⟨ChunkTypeFill, blocks, 4, pattern⟩]) :
    (splitBlob (encodeSparse bs tb [⟨ChunkTypeFill, blocks, 4, pattern⟩])).flatten
      = (List.replicate (blocks * bs / 4) pattern).flatten ∧
    (splitBlob (encodeSparse bs tb
        [⟨ChunkTypeFill, blocks, 4, pattern⟩])).flatten.length
      = blocks * bs := by
  obtain ⟨h1, h2⟩ := splitBlob_master bs tb [⟨ChunkTypeFill, blocks, 4, pattern⟩] hwf
  have htb : tb = blocks := by
    have := hwf.2.2.2.2.1
    simpa using this
  have he : referenceExpansion bs [⟨ChunkTypeFill, blocks, 4, pattern⟩]
      = (List.replicate (blocks * bs / 4) pattern).flatten := by
    simp only [referenceExpansion, List.map_cons, List.map_nil, List.flatten_cons,
      List.flatten_nil, List.append_nil, referenceChunkExpansion, ChunkTypeRaw,
      ChunkTypeFill]
    norm_num
  constructor
  · rw [h1, he]
  · rw [h1, h2, htb]

theorem splitBlob_fill_tiling_witness :
    sparseWf 4 1 [⟨ChunkTypeFill, 1, 4, [0, 0, 0, 170]⟩] ∧
    ((splitBlob (encodeSparse 4 1 [⟨ChunkTypeFill, 1, 4, [0, 0, 0, 170]⟩])).flatten
        = (List.replicate (1 * 4 / 4) [0, 0, 0, 170]).flatten ∧
     (splitBlob (encodeSparse 4 1
        [⟨ChunkTypeFill, 1, 4, [0, 0, 0, 170]⟩])).flatten.length = 1 * 4) := by
  have hwf : sparseWf 4 1 [⟨ChunkTypeFill, 1, 4, [0, 0, 0, 170]⟩] := by
    unfold sparseWf chunkWf chunkEnc
    decide
  exact ⟨hwf, splitBlob_fill_tiling 4 1 1 [0, 0, 0, 170] hwf⟩

/-! ### GPT header CRC scope (C8, `part_006`)

`GPTHeader` is the 92-byte `tiny-struct` layout of `part_006` (signature 8 raw
bytes, little-endian u32/u64 fields, 16 raw GUID bytes).  `$toBuffer()`
serializes exactly these 92 bytes, so the CRC32 computed by `parseHeader` and
`buildHeader` always covers 92 bytes, regardless of the `headerSize` field.
The npm `crc-32` package returns the 32 CRC bits as a signed integer; two CRCs
are equal as signed 32-bit values exactly when the unsigned 32-bit values used
here are equal, so the `!==` comparisons are faithfully mirrored. -/

structure GPTHeader where
  signature : List Nat
  revision : Nat
  headerSize : Nat
  headerCrc32 : Nat
  reserved : Nat
  currentLba : Nat
  alternateLba : Nat
  firstUsableLba : Nat
  lastUsableLba : Nat
  diskGuid : List Nat
  partEntriesStartLba : Nat
  numPartEntries : Nat
  partEntrySize : Nat
  partEntriesCrc32 : Nat
deriving DecidableEq, Repr

/-- `GPTHeader.from(data)`: field-wise little-endian parse of the layout. -/
def gptHeaderFrom (data : List Nat) : GPTHeader :=
  { signature := readBytes data 0 8
    revision := readU32le data 8
    headerSize := readU32le data 12
    headerCrc32 := readU32le data 16
    reserved := readU32le data 20
    currentLba := readU64le data 24
    alternateLba := readU64le data 32
    firstUsableLba := readU64le data 40
    lastUsableLba := readU64le data 48
    diskGuid := readBytes data 56 16
    partEntriesStartLba := readU64le data 72
    numPartEntries := readU32le data 80
    partEntrySize := readU32le data 84
    partEntriesCrc32 := readU32le data 88 }

/-- `$toBuffer()`: serialize the 92-byte layout. -/
def GPTHeader.toBuffer (h : GPTHeader) : List Nat :=
  h.signature ++ u32le h.revision ++ u32le h.headerSize ++ u32le h.headerCrc32 ++
    u32le h.reserved ++ u64le h.currentLba ++ u64le h.alternateLba ++
    u64le h.firstUsableLba ++ u64le h.lastUsableLba ++ h.diskGuid ++
    u64le h.partEntriesStartLba ++ u32le h.numPartEntries ++ u32le h.partEntrySize ++
    u32le h.partEntriesCrc32

/-- The bytes of `"EFI PART"`. -/
def SIGNATURE_BYTES : List Nat := [69, 70, 73, 32, 80, 65, 82, 84]

structure ParseHeaderResult where
  headerCrc32 : Nat
  mismatchCrc32 : Bool
deriving DecidableEq, Repr

/-- `GPT.parseHeader(data)`: signature/revision/header-size guards, then the
stored CRC is compared with the CRC32 of the re-serialized header with a
zeroed CRC field — always 92 bytes, whatever `headerSize` says. -/
def parseHeader (sectorSize : Nat) (data : List Nat) : Option ParseHeaderResult :=
  let h := gptHeaderFrom data
  if h.signature ≠ SIGNATURE_BYTES then none
  else if h.revision ≠ 0x10000 then none
  else if h.headerSize < 92 ∨ h.headerSize > sectorSize then none
  else
    let actualHeaderCrc32 := crc32 (GPTHeader.toBuffer { h with headerCrc32 := 0 })
    some { headerCrc32 := h.headerCrc32
           mismatchCrc32 := h.headerCrc32 != actualHeaderCrc32 }

/-- `GPT.buildHeader(partEntries)`: recompute `partEntriesCrc32` and
`headerCrc32` (the CRC32 of the 92-byte serialization with the CRC field
zeroed), failing when either CRC is zero. -/
def buildHeader (h : GPTHeader) (partEntries : List Nat) : Option (List Nat) :=
  let pec := crc32 partEntries
  if pec = 0 then none
  else
    let h1 := { h with partEntriesCrc32 := pec, headerCrc32 := 0 }
    let hcrc := crc32 (GPTHeader.toBuffer h1)
    if hcrc = 0 then none
    else some (GPTHeader.toBuffer { h1 with headerCrc32 := hcrc })

/-- The claim's formula: zero the CRC field (bytes 16–19) and CRC32 exactly
`headerSize` bytes of the serialized header. -/
def specHeaderCrc32 (data : List Nat) (headerSize : Nat) : Nat :=
  crc32 ((data.take 16 ++ [0, 0, 0, 0] ++ data.drop 20).take headerSize)

/-- A 96-byte GPT header image whose `headerSize` field is 96 and whose CRC
field is zero. -/
def gptCexBase : List Nat :=
  SIGNATURE_BYTES ++ u32le 0x10000 ++ u32le 96 ++ [0, 0, 0, 0] ++ List.replicate 76 0

/-- The same 96-byte image with the stored CRC set to the spec's value: the
CRC32 of all `headerSize = 96` bytes with the CRC field zeroed. -/
def gptCexData : List Nat :=
  SIGNATURE_BYTES ++ u32le 0x10000 ++ u32le 96 ++ u32le (crc32 gptCexBase) ++
    List.replicate 76 0

/-- A 92-byte header image with `headerSize = 92` and a zero CRC field. -/
def gptW92Base : List Nat :=
  SIGNATURE_BYTES ++ u32le 0x10000 ++ u32le 92 ++ [0, 0, 0, 0] ++ List.replicate 72 0

/-- The same 92-byte image with the stored CRC set to the CRC32 of the
zero-CRC form. -/
def gptW92 : List Nat :=
  SIGNATURE_BYTES ++ u32le 0x10000 ++ u32le 92 ++ u32le (crc32 gptW92Base) ++
    List.replicate 72 0

theorem u64le_length (x : Nat) : (u64le x).length = 8 := rfl

theorem byteAt_lt (data : List Nat) (hb : ∀ b ∈ data, b < 256) (j : Nat) :
    byteAt data j < 256 := by
  by_cases hj : j < data.length
  · rw [byteAt, List.getD_eq_getElem data 0 hj]
    exact hb _ (data.getElem_mem hj)
  · rw [byteAt, List.getD_eq_default]
    · norm_num
    · omega

theorem u32le_readU32le (data : List Nat) (off : Nat)
    (hb : ∀ j, byteAt data j < 256) :
    u32le (readU32le data off) = readBytes data off 4 := by
  have e : readBytes data off 4 = [byteAt data off, byteAt data (off + 1),
      byteAt data (off + 2), byteAt data (off + 3)] := rfl
  rw [e]
  have h0 := hb off
  have h1 := hb (off + 1)
  have h2 := hb (off + 2)
  have h3 := hb (off + 3)
  simp only [u32le, readU32le, List.cons.injEq, and_true]
  refine ⟨?_, ?_, ?_, ?_⟩ <;> omega

theorem readU32le_lt (data : List Nat) (off : Nat) (hb : ∀ j, byteAt data j < 256) :
    readU32le data off < 4294967296 := by
  have h0 := hb off
  have h1 := hb (off + 1)
  have h2 := hb (off + 2)
  have h3 := hb (off + 3)
  simp only [readU32le]
  omega

theorem u64le_readU64le (data : List Nat) (off : Nat)
    (hb : ∀ j, byteAt data j < 256) :
    u64le (readU64le data off) = readBytes data off 8 := by
  have hlo := readU32le_lt data off hb
  have hhi := readU32le_lt data (off + 4) hb
  have e1 : readU64le data off % 4294967296 = readU32le data off := by
    simp only [readU64le]
    omega
  have e2 : readU64le data off / 4294967296 = readU32le data (off + 4) := by
    simp only [readU64le]
    omega
  rw [u64le, e1, e2, u32le_readU32le data off hb, u32le_readU32le data (off + 4) hb]
  rfl

theorem readBytes_add (data : List Nat) (off m n : Nat) :
    readBytes data off (m + n) = readBytes data off m ++ readBytes data (off + m) n := by
  simp only [readBytes]
  rw [List.range_add, List.map_append, List.map_map]
  congr 1
  apply List.map_congr_left
  intro i _
  simp only [Function.comp_apply]
  congr 1
  omega

theorem readBytes_join (data : List Nat) (a m n k : Nat) (rest : List Nat)
    (h : a + m = k) :
    readBytes data a m ++ (readBytes data k n ++ rest)
      = readBytes data a (m + n) ++ rest := by
  subst h
  rw [readBytes_add, List.append_assoc]

theorem readBytes_join_last (data : List Nat) (a m n k : Nat) (h : a + m = k) :
    readBytes data a m ++ readBytes data k n = readBytes data a (m + n) := by
  subst h
  rw [readBytes_add]

theorem readBytes_eq (data : List Nat) (off n : Nat) (h : off + n ≤ data.length) :
    readBytes data off n = (data.drop off).take n := by
  apply List.ext_getElem
  · simp only [readBytes, List.length_map, List.length_range, List.length_take,
      List.length_drop]
    omega
  · intro i h1 h2
    simp only [readBytes, List.length_map, List.length_range] at h1
    simp only [readBytes, List.getElem_map, List.getElem_range, byteAt]
    rw [List.getElem_take, List.getElem_drop]
    exact List.getD_eq_getElem data 0 (by omega)

theorem take_shift (xs ys : List Nat) (n off : Nat) (h : xs.length = n)
    (hle : n ≤ off) :
    (xs ++ ys).take off = xs ++ ys.take (off - n) := by
  subst h
  have hoff : off = xs.length + (off - xs.length) := by omega
  rw [hoff, List.take_append, Nat.add_sub_cancel_left]

theorem crcRound_lt (r : Nat) (h : r < 4294967296) : crcRound r < 4294967296 := by
  rw [crcRound]
  split
  · have h1 : r / 2 < 2 ^ 32 := by omega
    have h2 : (0xEDB88320 : Nat) < 2 ^ 32 := by norm_num
    have h3 := Nat.xor_lt_two_pow h1 h2
    exact lt_of_lt_of_le h3 (by norm_num)
  · omega

theorem crcTable_lt (i : Nat) (h : i < 4294967296) : crcTable i < 4294967296 := by
  show crcRound^[8] i < 4294967296
  rw [show (8 : Nat) = 7 + 1 from rfl, Function.iterate_succ_apply,
    show (7 : Nat) = 6 + 1 from rfl, Function.iterate_succ_apply,
    show (6 : Nat) = 5 + 1 from rfl, Function.iterate_succ_apply,
    show (5 : Nat) = 4 + 1 from rfl, Function.iterate_succ_apply,
    show (4 : Nat) = 3 + 1 from rfl, Function.iterate_succ_apply,
    show (3 : Nat) = 2 + 1 from rfl, Function.iterate_succ_apply,
    show (2 : Nat) = 1 + 1 from rfl, Function.iterate_succ_apply,
    show (1 : Nat) = 0 + 1 from rfl, Function.iterate_succ_apply,
    Function.iterate_zero_apply]
  exact crcRound_lt _ (crcRound_lt _ (crcRound_lt _ (crcRound_lt _ (crcRound_lt _
    (crcRound_lt _ (crcRound_lt _ (crcRound_lt _ h)))))))

theorem crc32_step_lt (c b : Nat) (hc : c < 4294967296) :
    (c / 256) ^^^ crcTable ((c ^^^ b) % 256) < 4294967296 := by
  have h1 : c / 256 < 2 ^ 32 := by omega
  have h2 : crcTable ((c ^^^ b) % 256) < 2 ^ 32 :=
    lt_of_lt_of_le (crcTable_lt _ (by omega)) (by norm_num)
  exact lt_of_lt_of_le (Nat.xor_lt_two_pow h1 h2) (by norm_num)

theorem crc32_foldl_lt (bytes : List Nat) :
    ∀ c, c < 4294967296 →
    bytes.foldl (fun c b => (c / 256) ^^^ crcTable ((c ^^^ b) % 256)) c < 4294967296 := by
  induction bytes with
  | nil =>
    intro c hc
    simpa using hc
  | cons b t ih =>
    intro c hc
    simp only [List.foldl_cons]
    exact ih _ (crc32_step_lt c b hc)

theorem crc32_lt (bytes : List Nat) : crc32 bytes < 4294967296 := by
  rw [crc32]
  have h1 : bytes.foldl (fun c b => (c / 256) ^^^ crcTable ((c ^^^ b) % 256)) 0xFFFFFFFF
      < 2 ^ 32 :=
    lt_of_lt_of_le (crc32_foldl_lt bytes 0xFFFFFFFF (by norm_num)) (by norm_num)
  have h2 : (0xFFFFFFFF : Nat) < 2 ^ 32 := by norm_num
  exact lt_of_lt_of_le (Nat.xor_lt_two_pow h1 h2) (by norm_num)

theorem toBuffer_crc_readback (g : GPTHeader) (hsig : g.signature.length = 8)
    (hguid : g.diskGuid.length = 16) (hcrc32 : g.headerCrc32 < 4294967296) :
    readU32le (GPTHeader.toBuffer g) 16 = g.headerCrc32 ∧
    (GPTHeader.toBuffer g).take 16 ++ [0, 0, 0, 0] ++ (GPTHeader.toBuffer g).drop 20
      = GPTHeader.toBuffer { g with headerCrc32 := 0 } ∧
    (GPTHeader.toBuffer g).length = 92 := by
  have e : GPTHeader.toBuffer g
      = g.signature ++ (u32le g.revision ++ (u32le g.headerSize ++ (u32le g.headerCrc32 ++
          (u32le g.reserved ++ (u64le g.currentLba ++ (u64le g.alternateLba ++
          (u64le g.firstUsableLba ++ (u64le g.lastUsableLba ++ (g.diskGuid ++
          (u64le g.partEntriesStartLba ++ (u32le g.numPartEntries ++
          (u32le g.partEntrySize ++ u32le g.partEntriesCrc32)))))))))))) := by
    simp [GPTHeader.toBuffer, List.append_assoc]
  have e0 : GPTHeader.toBuffer { g with headerCrc32 := 0 }
      = g.signature ++ (u32le g.revision ++ (u32le g.headerSize ++ (u32le 0 ++
          (u32le g.reserved ++ (u64le g.currentLba ++ (u64le g.alternateLba ++
          (u64le g.firstUsableLba ++ (u64le g.lastUsableLba ++ (g.diskGuid ++
          (u64le g.partEntriesStartLba ++ (u32le g.numPartEntries ++
          (u32le g.partEntrySize ++ u32le g.partEntriesCrc32)))))))))))) := by
    simp [GPTHeader.toBuffer, List.append_assoc]
  refine ⟨?_, ?_, ?_⟩
  · rw [e, readU32le_shift g.signature _ 8 16 hsig (by norm_num),
      readU32le_shift (u32le g.revision) _ 4 (16 - 8) (u32le_length _) (by norm_num),
      readU32le_shift (u32le g.headerSize) _ 4 (16 - 8 - 4) (u32le_length _) (by norm_num)]
    exact readU32le_here _ _ hcrc32
  · rw [e, e0,
      take_shift g.signature _ 8 16 hsig (by norm_num),
      take_shift (u32le g.revision) _ 4 (16 - 8) (u32le_length _) (by norm_num),
      take_shift (u32le g.headerSize) _ 4 (16 - 8 - 4) (u32le_length _) (by norm_num),
      drop_shift' g.signature _ 8 20 hsig (by norm_num),
      drop_shift' (u32le g.revision) _ 4 (20 - 8) (u32le_length _) (by norm_num),
      drop_shift' (u32le g.headerSize) _ 4 (20 - 8 - 4) (u32le_length _) (by norm_num),
      drop_shift' (u32le g.headerCrc32) _ 4 (20 - 8 - 4 - 4) (u32le_length _)
        (by norm_num)]
    norm_num [u32le, List.append_assoc]
  · rw [e]
    simp only [List.length_append, hsig, hguid, u32le_length, u64le_length]

theorem toBuffer_self_crc (g : GPTHeader) (hsig : g.signature.length = 8)
    (hguid : g.diskGuid.length = 16)
    (hself : g.headerCrc32 = crc32 (GPTHeader.toBuffer { g with headerCrc32 := 0 })) :
    readU32le (GPTHeader.toBuffer g) 16 = specHeaderCrc32 (GPTHeader.toBuffer g) 92 := by
  obtain ⟨hr, hs2, hl⟩ := toBuffer_crc_readback g hsig hguid
    (by rw [hself]; exact crc32_lt _)
  rw [hr, specHeaderCrc32]
  have hlen : ((GPTHeader.toBuffer g).take 16 ++ [0, 0, 0, 0]
      ++ (GPTHeader.toBuffer g).drop 20).length = 92 := by
    simp [hl]
  rw [List.take_of_length_le (le_of_eq hlen), hs2, hself]

theorem buildHeader_crc (h : GPTHeader) (pe out : List Nat)
    (hsig : h.signature.length = 8) (hguid : h.diskGuid.length = 16)
    (hbuild : buildHeader h pe = some out) :
    readU32le out 16 = specHeaderCrc32 out 92 := by
  simp only [buildHeader] at hbuild
  split at hbuild
  · exact absurd hbuild (by simp)
  · split at hbuild
    · exact absurd hbuild (by simp)
    · rw [Option.some.injEq] at hbuild
      subst hbuild
      apply toBuffer_self_crc
      · exact hsig
      · exact hguid
      · rfl

theorem gptHeaderFrom_toBuffer (data : List Nat) (hlen : 92 ≤ data.length)
    (hb : ∀ b ∈ data, b < 256) :
    GPTHeader.toBuffer { gptHeaderFrom data with headerCrc32 := 0 }
      = data.take 16 ++ ([0, 0, 0, 0] ++ (data.drop 20).take 72) := by
  have hball : ∀ j, byteAt data j < 256 := byteAt_lt data hb
  have e : GPTHeader.toBuffer { gptHeaderFrom data with headerCrc32 := 0 }
      = readBytes data 0 8 ++ (u32le (readU32le data 8) ++ (u32le (readU32le data 12) ++
          (u32le 0 ++ (u32le (readU32le data 20) ++ (u64le (readU64le data 24) ++
          (u64le (readU64le data 32) ++ (u64le (readU64le data 40) ++
          (u64le (readU64le data 48) ++ (readBytes data 56 16 ++
          (u64le (readU64le data 72) ++ (u32le (readU32le data 80) ++
          (u32le (readU32le data 84) ++ u32le (readU32le data 88))))))))))))) := by
    simp [GPTHeader.toBuffer, gptHeaderFrom, List.append_assoc]
  rw [e, u32le_readU32le data 8 hball, u32le_readU32le data 12 hball,
    u32le_readU32le data 20 hball, u32le_readU32le data 80 hball,
    u32le_readU32le data 84 hball, u32le_readU32le data 88 hball,
    u64le_readU64le data 24 hball, u64le_readU64le data 32 hball,
    u64le_readU64le data 40 hball, u64le_readU64le data 48 hball,
    u64le_readU64le data 72 hball]
  have hz : u32le 0 = [0, 0, 0, 0] := rfl
  rw [hz]
  rw [readBytes_join_last data 84 4 4 88 (by norm_num),
    readBytes_join_last data 80 4 (4 + 4) 84 (by norm_num),
    readBytes_join_last data 72 8 (4 + (4 + 4)) 80 (by norm_num),
    readBytes_join_last data 56 16 (8 + (4 + (4 + 4))) 72 (by norm_num),
    readBytes_join_last data 48 8 (16 + (8 + (4 + (4 + 4)))) 56 (by norm_num),
    readBytes_join_last data 40 8 (8 + (16 + (8 + (4 + (4 + 4))))) 48 (by norm_num),
    readBytes_join_last data 32 8 (8 + (8 + (16 + (8 + (4 + (4 + 4)))))) 40 (by norm_num),
    readBytes_join_last data 24 8 (8 + (8 + (8 + (16 + (8 + (4 + (4 + 4))))))) 32
      (by norm_num),
    readBytes_join_last data 20 4 (8 + (8 + (8 + (8 + (16 + (8 + (4 + (4 + 4)))))))) 24
      (by norm_num)]
  rw [readBytes_join data 8 4 4 12 _ (by norm_num),
    readBytes_join data 0 8 (4 + 4) 8 _ (by norm_num)]
  norm_num
  rw [readBytes_eq data 0 16 (by omega), readBytes_eq data 20 72 (by omega)]
  simp

/-- C8 (amended): the code always CRCs the 92-byte `$toBuffer()` serialization,
so the claim holds exactly when `headerSize = 92`: then `parseHeader`'s
`mismatchCrc32` compares the stored CRC with the CRC32 of exactly
`headerSize = 92` bytes of the serialized header with the CRC field zeroed,
and every header `buildHeader` emits stores at offset 16 the CRC32 of exactly
its 92 serialized bytes with the CRC field zeroed.  (For larger `headerSize`
the claim fails; see the counterexample.) -/
theorem parseHeader_buildHeader_crc_92 (sectorSize : Nat) (data : List Nat)
    (hbytes : ∀ b ∈ data, b < 256) (hlen : 92 ≤ data.length)
    (h92 : readU32le data 12 = 92) (r : ParseHeaderResult)
    (hp : parseHeader sectorSize data = some r) :
    (r.mismatchCrc32 = (readU32le data 16 != specHeaderCrc32 data 92)) ∧
    ∀ (h : GPTHeader) (pe out : List Nat), h.signature.length = 8 →
      h.diskGuid.length = 16 → h.headerSize = 92 → buildHeader h pe = some out →
      readU32le out 16 = specHeaderCrc32 out 92 := by
  constructor
  · simp only [parseHeader] at hp
    split at hp
    · exact absurd hp (by simp)
    · split at hp
      · exact absurd hp (by simp)
      · split at hp
        · exact absurd hp (by simp)
        · rw [Option.some.injEq] at hp
          subst hp
          dsimp only
          have h1 : (gptHeaderFrom data).headerCrc32 = readU32le data 16 := rfl
          have h2 : crc32 (GPTHeader.toBuffer { gptHeaderFrom data with headerCrc32 := 0 })
              = specHeaderCrc32 data 92 := by
            rw [gptHeaderFrom_toBuffer data hlen hbytes, specHeaderCrc32]
            congr 1
            rw [take_shift (data.take 16 ++ [0, 0, 0, 0]) _ 20 92 (by simp; omega)
              (by norm_num)]
            norm_num [List.append_assoc]
          rw [h1, h2]
  · intro h pe out hsg hgd hhs hbuild
    exact buildHeader_crc h pe out hsg hgd hbuild

set_option maxRecDepth 10000 in
/-- C8: counterexample to CRC-ing exactly `headerSize` bytes: a 96-byte header
image with `headerSize = 96` whose stored CRC equals the spec's formula (the
CRC32 of all 96 bytes with the CRC field zeroed) is still reported as
`mismatchCrc32 = true` by `parseHeader`, because the code CRCs only the
92-byte `$toBuffer()` serialization regardless of `headerSize`. -/
theorem parseHeader_crc_scope_counterexample :
    specHeaderCrc32 gptCexData 96 = readU32le gptCexData 16 ∧
    (parseHeader 512 gptCexData).map ParseHeaderResult.mismatchCrc32 = some true := by
  constructor
  · decide
  · decide

set_option maxRecDepth 10000 in
theorem parseHeader_buildHeader_crc_92_witness :
    (∀ b ∈ gptW92, b < 256) ∧ 92 ≤ gptW92.length ∧ readU32le gptW92 12 = 92 ∧
    parseHeader 512 gptW92 = some ⟨crc32 gptW92Base, false⟩ ∧
    (((⟨crc32 gptW92Base, false⟩ : ParseHeaderResult).mismatchCrc32
        = (readU32le gptW92 16 != specHeaderCrc32 gptW92 92)) ∧
     ∀ (h : GPTHeader) (pe out : List Nat), h.signature.length = 8 →
       h.diskGuid.length = 16 → h.headerSize = 92 → buildHeader h pe = some out →
       readU32le out 16 = specHeaderCrc32 out 92) := by
  refine ⟨?_, ?_, ?_, ?_, ?_⟩
  · decide
  · decide
  · decide
  · decide
  · exact parseHeader_buildHeader_crc_92 512 gptW92 (by decide) (by decide) (by decide)
      ⟨crc32 gptW92Base, false⟩ (by decide)
